import Mathlib

/-!
Verification of the featherbone server core: a shallow embedding of the
request pipeline (server/datasource.js), the CRUD engine
(server/services/crud.js), the SQL tools (tools service), and the event
subscription service, together with theorems settling the frozen claims
about them.

JavaScript values flowing through the pipeline are modelled by the
inductive type `JVal` (JSON documents: null, booleans, numbers, strings,
arrays, objects as association lists).  JavaScript objects are association
lists whose keys are unique; property assignment is `setField`
(overwrite in place or append).  Functions that can throw are modelled in
`Except String`.
-/

namespace FB

/-- A JavaScript/JSON value. Objects keep their fields in insertion order,
as JavaScript objects do. -/
inductive JVal where
  | null
  | bool (b : Bool)
  | num (n : Int)
  | str (s : String)
  | arr (xs : List JVal)
  | obj (fs : List (String × JVal))

-- Size measure used for termination of recursive functions on `JVal`.
mutual

def jSize : JVal → Nat
  | .null | .bool _ | .num _ | .str _ => 1
  | .arr xs => 1 + jSizeL xs
  | .obj fs => 1 + jSizeF fs

def jSizeL : List JVal → Nat
  | [] => 0
  | x :: xs => 1 + jSize x + jSizeL xs

def jSizeF : List (String × JVal) → Nat
  | [] => 0
  | (_, v) :: fs => 1 + jSize v + jSizeF fs

end

/-- Property read on an object field list (`o[k]`; `none` = `undefined`). -/
def lookupField : List (String × JVal) → String → Option JVal
  | [], _ => none
  | (k', v) :: rest, k => if k' = k then some v else lookupField rest k

/-- JavaScript property assignment `o[k] = v` on an object field list:
overwrite in place if the key exists, else append. -/
def setField : List (String × JVal) → String → JVal → List (String × JVal)
  | [], k, v => [(k, v)]
  | (k', v') :: rest, k, v =>
    if k' = k then (k, v) :: rest else (k', v') :: setField rest k v

/-- Keys of an object field list, in order. -/
def fieldKeys (fs : List (String × JVal)) : List String :=
  fs.map Prod.fst

/-- Pair the elements of an array with their stringified indices, the way
`Object.keys` enumerates a JavaScript array. -/
def idxPairs : Nat → List JVal → List (String × JVal)
  | _, [] => []
  | i, x :: xs => (toString i, x) :: idxPairs (i + 1) xs

theorem jSizeF_idxPairs (xs : List JVal) : ∀ i, jSizeF (idxPairs i xs) = jSizeL xs := by
  induction xs with
  | nil => intro i; rfl
  | cons x xs ih => intro i; simp [idxPairs, jSizeF, jSizeL, ih]

-- Deep structural equality of JSON values, as used by the
-- fast-json-patch dependency (_areEquals): arrays element-wise, objects
-- by key lookup with equal key counts.
mutual

def jeq : JVal → JVal → Bool
  | .null, .null => true
  | .bool a, .bool b => a = b
  | .num a, .num b => a = b
  | .str a, .str b => a = b
  | .arr xs, .arr ys => jeqL xs ys
  | .obj fs, .obj gs => fs.length = gs.length && jeqF fs gs
  | _, _ => false

def jeqL : List JVal → List JVal → Bool
  | [], [] => true
  | x :: xs, y :: ys => jeq x y && jeqL xs ys
  | _, _ => false

def jeqF : List (String × JVal) → List (String × JVal) → Bool
  | [], _ => true
  | (k, v) :: fs, gs =>
    (match lookupField gs k with
     | some w => jeq v w
     | none => false) && jeqF fs gs

end

/-- Upper-case the first character of a list of characters. -/
def capitalizeChars : List Char → List Char
  | [] => []
  | c :: cs => c.toUpper :: cs

/-- Convert a character list holding underscores to camelCase: drop each
underscore and upper-case the character that follows it. -/
def camelChars : List Char → List Char
  | [] => []
  | '_' :: cs => capitalizeChars (camelChars cs)
  | c :: cs => c :: camelChars cs

/-- Modelled from the spec: `String.prototype.toCamelCase` from the
missing `common/string.js` module — converts a snake_case key to
camelCase (`"is_deleted"` becomes `"isDeleted"`; a key without
underscores is unchanged). -/
def toCamelCase (s : String) : String :=
  String.mk (camelChars s.data)

/-- Modelled from the spec: `String.prototype.toSnakeCase` from the
missing `common/string.js` module — converts a camelCase / PascalCase
name to snake_case (`"Contact"` becomes `"contact"`, `"isDeleted"`
becomes `"is_deleted"`). -/
def toSnakeCase (s : String) : String :=
  match s.data with
  | [] => ""
  | c :: cs =>
    String.mk (Char.toLower c ::
      (cs.map fun d =>
        if d.isUpper then ['_', d.toLower] else [d]).flatten)

/-- Modelled from the spec: `String.prototype.toName` from the missing
`common/string.js` module — converts a camelCase identifier to a
human-readable proper name (`"lastName"` becomes `"Last Name"`, a
PascalCase name such as `"Contact"` is unchanged). -/
def toName (s : String) : String :=
  match s.data with
  | [] => ""
  | c :: cs =>
    String.mk (c.toUpper ::
      (cs.map fun d =>
        if d.isUpper then [' ', d] else [d]).flatten)

example : toCamelCase "is_deleted" = "isDeleted" := by decide
example : toSnakeCase "Contact" = "contact" := by decide
example : toName "lastName" = "Last Name" := by decide
example : toName "Contact" = "Contact" := by decide

/-- Upper-case every character of a string (`String.prototype.toUpperCase`). -/
def upperStr (s : String) : String :=
  String.mk (s.data.map Char.toUpper)

/-- JavaScript truthiness of a JSON value. -/
def truthy : JVal → Bool
  | .null => false
  | .bool b => b
  | .num n => n ≠ 0
  | .str s => s ≠ ""
  | .arr _ => true
  | .obj _ => true

/-- Join a list of strings with a separator (`Array.prototype.join`). -/
def joinSep (sep : String) : List String → String
  | [] => ""
  | [s] => s
  | s :: rest => s ++ sep ++ joinSep sep rest

/-- Join a list of strings with commas (`Array.prototype.join(",")`). -/
def joinComma : List String → String :=
  joinSep ","

/-! ## Tools: `resolvePath`, `processSort` and the `getKeys` filter
compiler (the unnamed tools module, `src/unnamed/part_006`). -/

/-- The name of the internal surrogate primary key column, `tools.PKCOL`. -/
def PKCOL : String := "_pk"

/-- Split a dotted path on the dots (`"a.b.c"` into `["a","b","c"]`). -/
def splitDots (cs : List Char) : List String :=
  match cs with
  | [] => [""]
  | '.' :: rest => "" :: splitDots rest
  | c :: rest =>
    match splitDots rest with
    | [] => [String.mk [c]]
    | s :: ss => (String.mk (c :: s.data)) :: ss

/-- `tools.resolvePath(col, tokens)`: for a dotted path emits the nested
`(…).%I` placeholder, pushing the snake-cased segments onto `tokens`
(the source recurses on the prefix before `lastIndexOf(".")`;
unrolled here left to right over the segments).  Returns the placeholder
string and the grown token list. -/
def resolvePath (col : String) (tokens : List String) : String × List String :=
  match splitDots col.data with
  | [] => ("%I", tokens ++ [toSnakeCase col])
  | s :: ss =>
    ss.foldl (fun (acc : String × List String) seg =>
      ("(" ++ acc.1 ++ ").%I", acc.2 ++ [toSnakeCase seg]))
      ("%I", tokens ++ [toSnakeCase s])

/-- One entry of a filter `sort` array: `{property, order?}`. -/
structure SortItem where
  property : String
  order : Option String
deriving DecidableEq

/-- The primary-key tiebreaker entry `{property: tools.PKCOL}` that
`processSort` pushes onto the caller's sort array. -/
def pkSortItem : SortItem := ⟨PKCOL, none⟩

/-- The per-entry loop of `tools.processSort`: validates
`ASC`/`DESC`, resolves each property path and collects the
`"<placeholder> <order>"` parts, threading `tokens`. -/
def sortParts : List SortItem → List String → Except String (List String × List String)
  | [], tokens => .ok ([], tokens)
  | it :: rest, tokens =>
    let ord := upperStr (it.order.getD "ASC")
    if ord ≠ "ASC" ∧ ord ≠ "DESC" then
      .error ("Unknown operator \"" ++ ord ++ "\"")
    else
      let pr := resolvePath it.property tokens
      match sortParts rest pr.2 with
      | .ok (ps, toks) => .ok ((pr.1 ++ " " ++ ord) :: ps, toks)
      | .error e => .error e

/-- Result of `tools.processSort`: the `ORDER BY` clause, its parts, the
sort array as left behind in the caller's filter (the source mutates its
argument in place), and the grown token list. -/
structure ProcessSortResult where
  clause : String
  parts : List String
  sortAfter : List SortItem
  tokensAfter : List String

/-- `tools.processSort(sort, tokens)`: pushes the primary-key tiebreaker
onto `sort` (mutating the caller's array), then walks the mutated array
emitting `ORDER BY` parts with validated `ASC|DESC`. -/
def processSort (sort : List SortItem) (tokens : List String) :
    Except String ProcessSortResult :=
  let sort2 := sort ++ [pkSortItem]
  match sortParts sort2 tokens with
  | .error e => .error e
  | .ok (parts, toks) =>
    .ok ⟨if parts.isEmpty then "" else " ORDER BY " ++ joinComma parts,
      parts, sort2, toks⟩

/-- Modelled from the spec: the supported filter operators
(`Object.keys(f.operators)`; `common/core.js` is not in the sources).
The spec lists `=`, `!=`, `<`, `>`, `<=`, `>=`, `<>`, `~`, `~*`, `!~`,
`!~*`, `IN`. -/
def ops : List String :=
  ["=", "!=", "<", ">", "<=", ">=", "<>", "~", "~*", "!~", "!~*", "IN"]

/-- A filter criterion property: a single name or an array of names. -/
inductive CritProp where
  | one (s : String)
  | many (ss : List String)

/-- One entry of a filter `criteria` array: `{property, operator?, value}`. -/
structure Criterion where
  property : CritProp
  operator : Option String
  value : JVal

/-- State threaded through the criterion compiler of `tools.getKeys`:
the `tokens`, the query parameters and the next placeholder number. -/
structure CritState where
  tokens : List String
  params : List JVal
  p : Nat

/-- The body of the `criteria.forEach` loop in `tools.getKeys`
(`src/unnamed/part_006` lines 312–371): compiles one criterion to a SQL
fragment.  The branch for a value of object type first evaluates
`!where.value.id`; when the value is the JavaScript literal `null` that
property read throws a `TypeError` (caught by the surrounding `try`,
rejecting the request). -/
def compileCriterion (w : Criterion) (st : CritState) :
    Except String (String × CritState) :=
  let op := w.operator.getD "="
  if op ∉ ops then
    .error ("Unknown operator \"" ++ op ++ "\"")
  else if op = "IN" then
    match w.value with
    | .arr vals =>
      let inParts := (List.range vals.length).map
        (fun i => "$" ++ toString (st.p + i))
      match w.property with
      | .one prop =>
        let pr := resolvePath prop st.tokens
        .ok (pr.1 ++ " IN (" ++ joinComma inParts ++ ")",
          ⟨pr.2, st.params ++ vals, st.p + vals.length⟩)
      | .many _ => .error "TypeError: col.toSnakeCase is not a function"
    | _ => .error "TypeError: where.value.forEach is not a function"
  else
    match w.property with
    | .many props =>
      let step := props.foldl
        (fun (acc : List String × List String × Nat) prop =>
          let pr := resolvePath prop acc.2.1
          (acc.1 ++ [pr.1 ++ " " ++ op ++ " $" ++ toString acc.2.2],
            pr.2, acc.2.2 + 1))
        ([], st.tokens, st.p)
      .ok ("(" ++ joinSep " OR " step.1 ++ ")",
        ⟨step.2.1, st.params ++ props.map (fun _ => w.value), step.2.2⟩)
    | .one prop =>
      match w.value with
      | .null =>
        -- typeof null === "object" holds, and the guard then reads
        -- where.value.id off the null value
        .error "TypeError: Cannot read properties of null (reading 'id')"
      | .obj fs =>
        match lookupField fs "id" with
        | some v =>
          if truthy v then
            let pr := resolvePath (prop ++ ".id") st.tokens
            .ok (pr.1 ++ " " ++ op ++ " $" ++ toString st.p,
              ⟨pr.2, st.params ++ [v], st.p + 1⟩)
          else
            let pr := resolvePath prop st.tokens
            .ok (pr.1 ++ " IS NULL", ⟨pr.2, st.params, st.p⟩)
        | none =>
          let pr := resolvePath prop st.tokens
          .ok (pr.1 ++ " IS NULL", ⟨pr.2, st.params, st.p⟩)
      | .arr _ =>
        -- an array value reads id as undefined, hence IS NULL
        let pr := resolvePath prop st.tokens
        .ok (pr.1 ++ " IS NULL", ⟨pr.2, st.params, st.p⟩)
      | v =>
        let pr := resolvePath prop st.tokens
        .ok (pr.1 ++ " " ++ op ++ " $" ++ toString st.p,
          ⟨pr.2, st.params ++ [v], st.p + 1⟩)

/-- The criteria loop of `tools.getKeys`: compiles every criterion,
collecting the `WHERE` parts; any thrown error rejects the request. -/
def compileCriteria (ws : List Criterion) (st : CritState) :
    Except String (List String × CritState) :=
  match ws with
  | [] => .ok ([], st)
  | w :: rest =>
    match compileCriterion w st with
    | .error e => .error e
    | .ok (part, st1) =>
      match compileCriteria rest st1 with
      | .error e => .error e
      | .ok (parts, st2) => .ok (part :: parts, st2)

/-- A filter object: `{criteria, sort, offset?, limit?}` as consumed by
`tools.getKeys`. -/
structure Filter where
  criteria : List Criterion
  sort : List SortItem

/-- The sort-processing step of `tools.getKeys`: the local `sort` binds
the very array held in `filter.sort` (no copy), so the mutation done by
`processSort` lands in the caller's filter object; the step returns the
clause, the filter as the caller sees it afterwards, and the tokens. -/
def getKeysSortStep (f : Filter) (tokens : List String) :
    Except String (String × Filter × List String) :=
  match processSort f.sort tokens with
  | .error e => .error e
  | .ok st => .ok (st.clause, { f with sort := st.sortAfter }, st.tokensAfter)

/-- A sort order accepted by `processSort`: its upper-casing is `ASC` or
`DESC` (a missing order defaults to `ASC`). -/
def validOrder (o : Option String) : Prop :=
  upperStr (o.getD "ASC") = "ASC" ∨ upperStr (o.getD "ASC") = "DESC"

theorem sortParts_append (xs ys : List SortItem) :
    ∀ tokens, sortParts (xs ++ ys) tokens =
      match sortParts xs tokens with
      | .error e => .error e
      | .ok (ps, toks) =>
        match sortParts ys toks with
        | .error e => .error e
        | .ok (qs, u) => .ok (ps ++ qs, u) := by
  induction xs with
  | nil => intro tokens; cases h : sortParts ys tokens <;> simp [sortParts, h]
  | cons it rest ih =>
    intro tokens
    by_cases hv : upperStr (it.order.getD "ASC") ≠ "ASC" ∧
        upperStr (it.order.getD "ASC") ≠ "DESC"
    · simp [sortParts, hv]
    · simp only [List.cons_append, sortParts, if_neg hv]
      rw [List.append_eq, ih]
      cases h1 : sortParts rest (resolvePath it.property tokens).2 with
      | error e => simp
      | ok pr =>
        obtain ⟨ps, toks⟩ := pr
        cases h2 : sortParts ys toks <;> simp [h2]

theorem sortParts_ok_of_valid (sort : List SortItem)
    (h : ∀ it ∈ sort, validOrder it.order) :
    ∀ tokens, ∃ ps toks, sortParts sort tokens = .ok (ps, toks) := by
  induction sort with
  | nil => intro tokens; exact ⟨[], tokens, rfl⟩
  | cons it rest ih =>
    intro tokens
    have hit : validOrder it.order := h it (List.mem_cons_self it rest)
    have hrest := ih (fun x hx => h x (List.mem_cons_of_mem it hx))
    obtain ⟨ps, toks, hps⟩ := hrest (resolvePath it.property tokens).2
    have hv : ¬ (upperStr (it.order.getD "ASC") ≠ "ASC" ∧
        upperStr (it.order.getD "ASC") ≠ "DESC") := by
      rcases hit with h1 | h1 <;> simp [h1]
    refine ⟨((resolvePath it.property tokens).1 ++ " " ++
      upperStr (it.order.getD "ASC")) :: ps, toks, ?_⟩
    simp [sortParts, hv, hps]

theorem sortParts_pk (toks : List String) :
    sortParts [pkSortItem] toks = .ok (["%I ASC"], toks ++ ["_pk"]) := by
  rfl

/-- C10: `processSort` mutates its `sort` argument in place, appending
the `_pk` tiebreaker before building the `ORDER BY` parts; since
`tools.getKeys` passes `filter.sort` itself, running the sort step twice
over the same filter leaves the tiebreaker in the array twice and the
second `ORDER BY` ends in two `_pk` parts. -/
theorem processSort_mutates_sort (f : Filter) (tokens : List String)
    (h : ∀ it ∈ f.sort, validOrder it.order) :
    ∃ c1 f1 t1 c2 f2 t2,
      getKeysSortStep f tokens = .ok (c1, f1, t1) ∧
      f1.sort = f.sort ++ [pkSortItem] ∧
      getKeysSortStep f1 tokens = .ok (c2, f2, t2) ∧
      f2.sort = f.sort ++ [pkSortItem] ++ [pkSortItem] ∧
      ∃ st2 : ProcessSortResult,
        processSort f1.sort tokens = .ok st2 ∧
        ∃ ps, st2.parts = ps ++ ["%I ASC", "%I ASC"] := by
  obtain ⟨ps, toks, hps⟩ := sortParts_ok_of_valid f.sort h tokens
  have h1 : sortParts (f.sort ++ [pkSortItem]) tokens =
      .ok (ps ++ ["%I ASC"], toks ++ ["_pk"]) := by
    rw [sortParts_append]
    simp [hps, sortParts_pk]
  have h2 : sortParts (f.sort ++ [pkSortItem, pkSortItem]) tokens =
      .ok (ps ++ ["%I ASC", "%I ASC"], toks ++ ["_pk", "_pk"]) := by
    rw [sortParts_append f.sort [pkSortItem, pkSortItem] tokens, hps]
    have e : sortParts [pkSortItem, pkSortItem] toks =
        .ok (["%I ASC", "%I ASC"], (toks ++ ["_pk"]) ++ ["_pk"]) := rfl
    simp [e]
  have e1 : getKeysSortStep f tokens =
      .ok (if (ps ++ ["%I ASC"]) = [] then ""
           else " ORDER BY " ++ joinComma (ps ++ ["%I ASC"]),
        { f with sort := f.sort ++ [pkSortItem] }, toks ++ ["_pk"]) := by
    simp [getKeysSortStep, processSort, h1]
  have e2 : getKeysSortStep { f with sort := f.sort ++ [pkSortItem] } tokens =
      .ok (if (ps ++ ["%I ASC", "%I ASC"]) = [] then ""
           else " ORDER BY " ++ joinComma (ps ++ ["%I ASC", "%I ASC"]),
        { f with sort := f.sort ++ [pkSortItem, pkSortItem] },
        toks ++ ["_pk", "_pk"]) := by
    simp [getKeysSortStep, processSort, h2]
  refine ⟨_, _, _, _, _, _, e1, rfl, e2, by simp, ?_⟩
  refine ⟨⟨if (ps ++ ["%I ASC", "%I ASC"]) = [] then ""
      else " ORDER BY " ++ joinComma (ps ++ ["%I ASC", "%I ASC"]),
    ps ++ ["%I ASC", "%I ASC"],
    f.sort ++ [pkSortItem, pkSortItem],
    toks ++ ["_pk", "_pk"]⟩, ?_, ⟨ps, by simp⟩⟩
  simp [processSort, h2]

/-- C10 witness: a concrete one-entry sort with a lower-case `desc`
order satisfies the hypothesis and the double tiebreaker appears. -/
theorem processSort_mutates_sort_witness :
    (∀ it ∈ (Filter.mk [] [⟨"name", some "desc"⟩]).sort, validOrder it.order) ∧
    (∃ c1 f1 t1 c2 f2 t2,
      getKeysSortStep (Filter.mk [] [⟨"name", some "desc"⟩]) [] = .ok (c1, f1, t1) ∧
      f1.sort = [⟨"name", some "desc"⟩, pkSortItem] ∧
      getKeysSortStep f1 [] = .ok (c2, f2, t2) ∧
      f2.sort = [⟨"name", some "desc"⟩, pkSortItem, pkSortItem] ∧
      ∃ st2 : ProcessSortResult,
        processSort f1.sort [] = .ok st2 ∧
        ∃ ps, st2.parts = ps ++ ["%I ASC", "%I ASC"]) := by
  constructor
  · intro it hit
    simp only [List.mem_singleton] at hit
    subst hit
    right
    decide
  · have := processSort_mutates_sort (Filter.mk [] [⟨"name", some "desc"⟩]) []
      (by intro it hit
          simp only [List.mem_singleton] at hit
          subst hit
          right
          decide)
    simpa using this

/-- C7: filtering on a literal `null` value does not compile to
`IS NULL`; the guard in `tools.getKeys` reads `where.value.id` off the
null value and throws a `TypeError`, which the surrounding `try` turns
into a rejection of the request.  The `IS NULL` comparison is produced
only for an object value without a truthy `id` (such as `{}`), showing
the intent the spec describes. -/
theorem getKeys_null_criterion_bug :
    compileCriteria [⟨.one "name", none, .null⟩] ⟨["contact"], [], 1⟩ =
      .error "TypeError: Cannot read properties of null (reading 'id')" ∧
    compileCriteria [⟨.one "name", none, .obj []⟩] ⟨["contact"], [], 1⟩ =
      .ok (["%I IS NULL"], ⟨["contact", "name"], [], 1⟩) := by
  exact ⟨rfl, rfl⟩

/-! ## Events: `subscribe` / `doSubscribe` (`src/unnamed/part_005`). -/

/-- A row of the `$subscription` table:
`(nodeId, sessionId, subscriptionId, target)`. -/
structure SubRow where
  nodeId : String
  sessionId : String
  subscriptionId : String
  target : String
deriving DecidableEq

/-- The subscription argument of `events.subscribe`:
`{nodeId, sessionId, id, merge?}`. -/
structure SubReq where
  nodeId : String
  sessionId : String
  id : String
  merge : Bool

/-- Modelled from the spec: the DDL of the `$subscription` table is not
among the sources (only its INSERT/DELETE statements are); the spec's
statement that duplicate rows conflict implies a uniqueness constraint
over the full row.  A plain `INSERT` of an existing row then raises a
unique violation. -/
def insertPlain (tbl : List SubRow) (r : SubRow) : Except String (List SubRow) :=
  if r ∈ tbl then
    .error "duplicate key value violates unique constraint on \"$subscription\""
  else
    .ok (tbl ++ [r])

/-- `INSERT … ON CONFLICT DO NOTHING;` — an existing row is silently
ignored. -/
def insertIgnore (tbl : List SubRow) (r : SubRow) : List SubRow :=
  if r ∈ tbl then tbl else tbl ++ [r]

/-- The row inserted for one id of the `ids` array in `doSubscribe`. -/
def idRow (sub : SubReq) (i : String) : SubRow :=
  ⟨sub.nodeId, sub.sessionId, sub.id, i⟩

/-- The row inserted for the feather / table name in `doSubscribe`
(the name is snake-cased first). -/
def featherRow (sub : SubReq) (t : String) : SubRow :=
  ⟨sub.nodeId, sub.sessionId, sub.id, toSnakeCase t⟩

/-- The `ids.forEach` loop of `doSubscribe`: one
`INSERT … ON CONFLICT DO NOTHING;` per id. -/
def insertIds (tbl : List SubRow) (sub : SubReq) : List String → List SubRow
  | [] => tbl
  | i :: rest => insertIds (insertIgnore tbl (idRow sub i)) sub rest

/-- `doSubscribe` (`src/unnamed/part_005` lines 92–130): inserts one row
per id with `ON CONFLICT DO NOTHING`, then — when a table name is given —
one row for the feather with a plain `INSERT` (no conflict clause). -/
def doSubscribe (tbl : List SubRow) (sub : SubReq) (ids : List String)
    (tablename : Option String) : Except String (List SubRow) :=
  let tbl1 := insertIds tbl sub ids
  match tablename with
  | none => .ok tbl1
  | some t => insertPlain tbl1 (featherRow sub t)

/-- `events.unsubscribe` restricted to the `subscription` scope, as
invoked by `subscribe` when `merge` is false: deletes the rows whose
`subscriptionid` matches. -/
def unsubscribeRows (tbl : List SubRow) (id : String) : List SubRow :=
  tbl.filter (fun r => r.subscriptionId ≠ id)

/-- `events.subscribe`: validates the required subscription fields, runs
the prior-subscription delete unless `merge` is set, then `doSubscribe`. -/
def subscribe (tbl : List SubRow) (sub : Option SubReq) (ids : List String)
    (tablename : Option String) : Except String (List SubRow) :=
  match sub with
  | none => .ok tbl
  | some s =>
    if s.nodeId = "" then .error "Subscription requires a nodeId."
    else if s.sessionId = "" then .error "Subscription requires a sessionId."
    else if s.id = "" then .error "Subscription requires an id."
    else if s.merge then doSubscribe tbl s ids tablename
    else doSubscribe (unsubscribeRows tbl s.id) s ids tablename

theorem insertIds_mem_of_mem (sub : SubReq) (ids : List String) :
    ∀ tbl r, r ∈ tbl → r ∈ insertIds tbl sub ids := by
  induction ids with
  | nil => intro tbl r h; exact h
  | cons i rest ih =>
    intro tbl r h
    refine ih _ r ?_
    unfold insertIgnore
    by_cases hm : idRow sub i ∈ tbl <;> simp [hm, h]

theorem insertIds_mem_self (sub : SubReq) (ids : List String) :
    ∀ tbl, ∀ i ∈ ids, idRow sub i ∈ insertIds tbl sub ids := by
  induction ids with
  | nil => intro tbl i h; cases h
  | cons j rest ih =>
    intro tbl i h
    rcases List.mem_cons.mp h with h | h
    · subst h
      refine insertIds_mem_of_mem sub rest _ _ ?_
      unfold insertIgnore
      by_cases hm : idRow sub i ∈ tbl <;> simp [hm]
    · exact ih _ i h

theorem insertIds_subset (sub : SubReq) (ids : List String) :
    ∀ tbl r, r ∈ insertIds tbl sub ids →
      r ∈ tbl ∨ ∃ i ∈ ids, r = idRow sub i := by
  induction ids with
  | nil => intro tbl r h; exact Or.inl h
  | cons i rest ih =>
    intro tbl r h
    rcases ih _ r h with h1 | ⟨j, hj, hr⟩
    · unfold insertIgnore at h1
      by_cases hm : idRow sub i ∈ tbl
      · simp [hm] at h1; exact Or.inl h1
      · simp [hm] at h1
        rcases h1 with h1 | h1
        · exact Or.inl h1
        · exact Or.inr ⟨i, List.mem_cons_self i rest, h1⟩
    · exact Or.inr ⟨j, List.mem_cons_of_mem i hj, hr⟩

theorem insertIds_nodup (sub : SubReq) (ids : List String) :
    ∀ tbl, tbl.Nodup → (insertIds tbl sub ids).Nodup := by
  induction ids with
  | nil => intro tbl h; exact h
  | cons i rest ih =>
    intro tbl h
    refine ih _ ?_
    unfold insertIgnore
    by_cases hm : idRow sub i ∈ tbl
    · simpa [hm] using h
    · rw [if_neg hm]
      refine List.nodup_append.mpr ⟨h, List.nodup_singleton _, ?_⟩
      intro x hx hx1
      simp only [List.mem_singleton] at hx1
      subst hx1
      exact hm hx

/-- C6, amended: every call to `events.subscribe` with a non-empty
subscription carrying `nodeId`, `sessionId` and `id` inserts one
`(nodeId, sessionId, subscriptionId, target)` row per id and one row for
the feather name when given; the id rows are inserted with
`ON CONFLICT DO NOTHING` (an existing row is silently ignored and no
duplicate is created), but the feather row is inserted without a
conflict clause, so it must not already exist. -/
theorem subscribe_inserts (tbl : List SubRow) (s : SubReq)
    (ids : List String) (tablename : Option String)
    (hnode : s.nodeId ≠ "") (hsess : s.sessionId ≠ "") (hid : s.id ≠ "")
    (hmerge : s.merge = true)
    (hfresh : ∀ t, tablename = some t →
      featherRow s t ∉ insertIds tbl s ids) :
    ∃ tbl1, subscribe tbl (some s) ids tablename = .ok tbl1 ∧
      (∀ i ∈ ids, idRow s i ∈ tbl1) ∧
      (∀ t, tablename = some t → featherRow s t ∈ tbl1) ∧
      (∀ r ∈ tbl1, r ∈ tbl ∨ (∃ i ∈ ids, r = idRow s i) ∨
        (∃ t, tablename = some t ∧ r = featherRow s t)) ∧
      (tbl.Nodup → tbl1.Nodup) := by
  have hsub : subscribe tbl (some s) ids tablename =
      doSubscribe tbl s ids tablename := by
    simp [subscribe, hnode, hsess, hid, hmerge]
  cases tablename with
  | none =>
    refine ⟨insertIds tbl s ids, by rw [hsub]; rfl, ?_, ?_, ?_, ?_⟩
    · exact fun i hi => insertIds_mem_self s ids tbl i hi
    · intro t ht; cases ht
    · intro r hr
      rcases insertIds_subset s ids tbl r hr with h | h
      · exact Or.inl h
      · exact Or.inr (Or.inl h)
    · exact fun h => insertIds_nodup s ids tbl h
  | some t =>
    have hf := hfresh t rfl
    refine ⟨insertIds tbl s ids ++ [featherRow s t], ?_, ?_, ?_, ?_, ?_⟩
    · rw [hsub]
      simp only [doSubscribe, insertPlain]
      rw [if_neg hf]
    · intro i hi
      exact List.mem_append_left _ (insertIds_mem_self s ids tbl i hi)
    · intro u hu
      cases hu
      simp
    · intro r hr
      rcases List.mem_append.mp hr with h | h
      · rcases insertIds_subset s ids tbl r h with h1 | h1
        · exact Or.inl h1
        · exact Or.inr (Or.inl h1)
      · simp only [List.mem_singleton] at h
        exact Or.inr (Or.inr ⟨t, rfl, h⟩)
    · intro h
      rw [List.nodup_append]
      refine ⟨insertIds_nodup s ids tbl h, List.nodup_singleton _, ?_⟩
      intro x hx hx1
      simp only [List.mem_singleton] at hx1
      subst hx1
      exact hf hx

/-- C6 witness: a concrete subscription over two ids, one of which is
already present, and a fresh feather name. -/
theorem subscribe_inserts_witness :
    ((⟨"n1", "s1", "sub1", true⟩ : SubReq).nodeId ≠ "") ∧
    (∃ tbl1, subscribe [⟨"n1", "s1", "sub1", "id1"⟩]
        (some ⟨"n1", "s1", "sub1", true⟩) ["id1", "id2"] (some "Contact") =
        .ok tbl1 ∧
      (∀ i ∈ ["id1", "id2"],
        idRow ⟨"n1", "s1", "sub1", true⟩ i ∈ tbl1) ∧
      (∀ t, (some "Contact" : Option String) = some t →
        featherRow ⟨"n1", "s1", "sub1", true⟩ t ∈ tbl1) ∧
      (∀ r ∈ tbl1, r ∈ [⟨"n1", "s1", "sub1", "id1"⟩] ∨
        (∃ i ∈ ["id1", "id2"], r = idRow ⟨"n1", "s1", "sub1", true⟩ i) ∨
        (∃ t, (some "Contact" : Option String) = some t ∧
          r = featherRow ⟨"n1", "s1", "sub1", true⟩ t)) ∧
      (([⟨"n1", "s1", "sub1", "id1"⟩] : List SubRow).Nodup → tbl1.Nodup)) := by
  constructor
  · decide
  · exact subscribe_inserts [⟨"n1", "s1", "sub1", "id1"⟩]
      ⟨"n1", "s1", "sub1", true⟩ ["id1", "id2"] (some "Contact")
      (by decide) (by decide) (by decide) rfl
      (by intro t ht; cases ht; decide)

/-- C6 counterexample: when the feather row already exists, `doSubscribe`
does not silently ignore it — the plain `INSERT` raises a unique
violation; an id row that already exists is silently ignored. -/
theorem subscribe_feather_duplicate_counterexample :
    doSubscribe [⟨"n1", "s1", "sub1", "contact"⟩]
      ⟨"n1", "s1", "sub1", true⟩ [] (some "Contact") =
      .error "duplicate key value violates unique constraint on \"$subscription\"" ∧
    doSubscribe [⟨"n1", "s1", "sub1", "id1"⟩]
      ⟨"n1", "s1", "sub1", true⟩ ["id1"] none =
      .ok [⟨"n1", "s1", "sub1", "id1"⟩] := by
  exact ⟨rfl, rfl⟩

/-! ## JSON patch (RFC 6902, as used through the `fast-json-patch`
dependency): operations, application, and diff generation. -/

/-- A JSON-patch operation; paths are modelled as segment lists
(`"/a/b"` is `["a", "b"]`). -/
inductive PatchOp where
  | add (path : List String) (value : JVal)
  | remove (path : List String)
  | replace (path : List String) (value : JVal)

/-- Overwrite the element at an index, leaving the list unchanged when
the index is out of range. -/
def listSet {α : Type} : List α → Nat → α → List α
  | [], _, _ => []
  | _ :: rest, 0, w => w :: rest
  | x :: rest, i + 1, w => x :: listSet rest i w

/-- Insert an element at an index (RFC 6902 `add` on an array). -/
def listInsertAt {α : Type} : List α → Nat → α → List α
  | xs, 0, w => w :: xs
  | [], _ + 1, w => [w]
  | x :: rest, i + 1, w => x :: listInsertAt rest i w

/-- Remove the element at an index. -/
def listRemoveAt {α : Type} : List α → Nat → List α
  | [], _ => []
  | _ :: rest, 0 => rest
  | x :: rest, i + 1 => x :: listRemoveAt rest i

/-- RFC 6902 `add`: set an object member, insert into an array
(`"-"` appends).  Invalid paths are modelled as leaving the document
unchanged (the library would throw; no modelled claim exercises them). -/
def addAt : JVal → List String → JVal → JVal
  | _, [], w => w
  | .obj fs, [k], w => .obj (setField fs k w)
  | .obj fs, k :: rest, w =>
    (match lookupField fs k with
     | some v => .obj (setField fs k (addAt v rest w))
     | none => .obj fs)
  | .arr xs, [k], w =>
    if k = "-" then .arr (xs ++ [w])
    else
      (match k.toNat? with
       | some i => .arr (listInsertAt xs i w)
       | none => .arr xs)
  | .arr xs, k :: rest, w =>
    (match k.toNat? with
     | some i =>
       (match xs.get? i with
        | some v => .arr (listSet xs i (addAt v rest w))
        | none => .arr xs)
     | none => .arr xs)
  | v, _, _ => v

/-- RFC 6902 `replace`: overwrite an object member or array element. -/
def replaceAt : JVal → List String → JVal → JVal
  | _, [], w => w
  | .obj fs, [k], w => .obj (setField fs k w)
  | .obj fs, k :: rest, w =>
    (match lookupField fs k with
     | some v => .obj (setField fs k (replaceAt v rest w))
     | none => .obj fs)
  | .arr xs, [k], w =>
    (match k.toNat? with
     | some i => .arr (listSet xs i w)
     | none => .arr xs)
  | .arr xs, k :: rest, w =>
    (match k.toNat? with
     | some i =>
       (match xs.get? i with
        | some v => .arr (listSet xs i (replaceAt v rest w))
        | none => .arr xs)
     | none => .arr xs)
  | v, _, _ => v

/-- RFC 6902 `remove`: drop an object member or array element. -/
def removeAt : JVal → List String → JVal
  | v, [] => v
  | .obj fs, [k] => .obj (fs.filter (fun p => p.1 ≠ k))
  | .obj fs, k :: rest =>
    (match lookupField fs k with
     | some v => .obj (setField fs k (removeAt v rest))
     | none => .obj fs)
  | .arr xs, [k] =>
    (match k.toNat? with
     | some i => .arr (listRemoveAt xs i)
     | none => .arr xs)
  | .arr xs, k :: rest =>
    (match k.toNat? with
     | some i =>
       (match xs.get? i with
        | some v => .arr (listSet xs i (removeAt v rest))
        | none => .arr xs)
     | none => .arr xs)
  | v, _ => v

/-- `jsonpatch.applyPatch`: apply the operations in order. -/
def applyPatch (v : JVal) (ps : List PatchOp) : JVal :=
  ps.foldl
    (fun acc op =>
      match op with
      | .add path w => addAt acc path w
      | .replace path w => replaceAt acc path w
      | .remove path => removeAt acc path)
    v

/-- Apply a patch to a record given as a field list (record documents
stay objects under field-path operations). -/
def applyPatchFields (fs : List (String × JVal)) (ps : List PatchOp) :
    List (String × JVal) :=
  match applyPatch (.obj fs) ps with
  | .obj gs => gs
  | _ => fs

/-! ## CRUD: `doUpdate` and `doDelete` over a record store
(`src/server/services/crud.js`). -/

/-- The in-row pessimistic lock composite
`(username, acquiredAt, nodeId, eventKey)`; only the fields the claims
touch are carried. -/
structure RowLock where
  username : String
  eventKey : Option String
deriving DecidableEq

/-- A stored object row.  The system columns the claims touch are
explicit; `etag` is carried as a number because generated ids are
modelled by a fresh counter.  All other data lives in `fields`. -/
structure Row where
  pk : Nat
  id : String
  isDeleted : Bool
  lock : Option RowLock
  etag : Nat
  updated : String
  updatedBy : String
  fields : List (String × JVal)

/-- A record store plus the id-generation state: `f.createId` returns a
fresh random id, modelled as a counter `nextId` that every generated id
is drawn from and then incremented. -/
structure Store where
  tbl : List Row
  nextId : Nat

/-- Outcome of `crud.doUpdate`: the empty-patch no-op (`resolve([])`),
the missing/deleted-record result (`resolve(false)`), or the rewritten
row. -/
inductive UpdOutcome where
  | noop
  | missing
  | updated (r : Row)

/-- `crud.doUpdate` (`src/server/services/crud.js` lines 1209–1776) at
the record level.  An empty patch list resolves `[]` before any database
access.  The lock guard at line 1354 reads the closure variable `oldRec`,
which is assigned only at line 1365; at the time the guard runs it is
still `undefined`, so the guard can never fire — the embedding keeps the
read of that unassigned variable explicit.  On success the row is
rewritten with `updated`/`updatedBy` stamped, `isDeleted` reset,
`etag` regenerated as a fresh id when the feather carries an `etag`
property, and the lock cleared afterwards by `doUnlock`. -/
def doUpdate (st : Store) (props : List String) (rid : String)
    (patches : List PatchOp) (reqEk : Option String) (now user : String) :
    Except String (UpdOutcome × Store) :=
  if patches.isEmpty then .ok (.noop, st)
  else
    match st.tbl.find? (fun r => r.id = rid) with
    | none =>
      -- doSelect resolves undefined and tools.sanitize(undefined) throws
      .error "SyntaxError: \"undefined\" is not valid JSON"
    | some r =>
      -- crud.js line 1354: oldRec is still unassigned here
      let oldRecAtLockCheck : Option Row := none
      let proceed : Except String (UpdOutcome × Store) :=
        if r.isDeleted then .ok (.missing, st)
        else
          let fresh := st.nextId
          let upd : Row :=
            { r with
              isDeleted := false
              etag := if "etag" ∈ props then fresh else r.etag
              updated := now
              updatedBy := user
              lock := r.lock
              fields := applyPatchFields r.fields patches }
          let tbl1 := st.tbl.map (fun x => if x.pk = r.pk then upd else x)
          let tbl2 := tbl1.map
            (fun x => if x.id = rid then { x with lock := none } else x)
          .ok (.updated { upd with lock := none },
            { tbl := tbl2, nextId := st.nextId + 1 })
      match oldRecAtLockCheck with
      | some o =>
        (match o.lock with
         | some l =>
           if l.eventKey ≠ reqEk then
             .error ("Record is locked by " ++ l.username ++
               " and cannot be updated.")
           else proceed
         | none => proceed)
      | none => proceed

/-- `crud.doDelete` (`src/server/services/crud.js` lines 100–265) at the
record level: select the old record (with `showDeleted: true`), reject a
missing or already-deleted record, reject when the in-row lock carries a
different event key, then soft delete (`is_deleted = true`) or, for
`isHard`, remove the row. -/
def doDelete (st : Store) (rid : String) (reqEk : Option String)
    (isHard : Bool) : Except String Store :=
  match st.tbl.find? (fun r => r.id = rid) with
  | none => .error ("Record " ++ rid ++ " not found.")
  | some r =>
    if r.isDeleted then .error ("Record " ++ rid ++ " already deleted.")
    else
      let tbl1 : List Row :=
        if isHard then st.tbl.filter (fun x => x.id ≠ rid)
        else st.tbl.map
          (fun x => if x.id = rid then { x with isDeleted := true } else x)
      let del : Except String Store := .ok { st with tbl := tbl1 }
      match r.lock with
      | some l =>
        if l.eventKey ≠ reqEk then
          .error ("Record is locked by " ++ l.username ++
            " and cannot be updated.")
        else del
      | none => del

/-- The row-selection semantics of the SQL that `tools.getKeys` builds:
`SELECT _pk FROM <table> WHERE NOT is_deleted AND <criteria>`, where the
`NOT is_deleted` clause becomes `true` when `showDeleted` is set
(`src/unnamed/part_006` lines 263–294).  The compiled criteria are
abstracted as a row predicate. -/
def getKeysRows (tbl : List Row) (showDeleted : Bool)
    (crit : Row → Bool) : List Nat :=
  (tbl.filter (fun r => (showDeleted || !r.isDeleted) && crit r)).map Row.pk

/-- C2: a call to `doUpdate` with an empty patch list resolves `[]` and
leaves the store — hence every stored record and its etag — untouched,
and a successful non-empty PATCH rewrites the row with an etag
regenerated as a fresh id, different from every etag already stored. -/
theorem doUpdate_empty_noop_and_etag_changes (st : Store)
    (props : List String) (rid : String) (patches : List PatchOp)
    (reqEk : Option String) (now user : String)
    (hetag : "etag" ∈ props)
    (hfresh : ∀ r ∈ st.tbl, r.etag < st.nextId) :
    doUpdate st props rid [] reqEk now user = .ok (.noop, st) ∧
    (∀ r1 st1, doUpdate st props rid patches reqEk now user =
        .ok (.updated r1, st1) →
      r1.etag = st.nextId ∧ ∀ r0 ∈ st.tbl, r1.etag ≠ r0.etag) := by
  constructor
  · simp [doUpdate]
  · intro r1 st1 h
    by_cases hp : patches.isEmpty
    · rw [doUpdate, if_pos hp] at h
      simp at h
    · rw [doUpdate, if_neg hp] at h
      cases hf : st.tbl.find? (fun r => r.id = rid) with
      | none => rw [hf] at h; simp at h
      | some r =>
        rw [hf] at h
        by_cases hd : r.isDeleted
        · simp [hd] at h
        · simp [hd] at h
          obtain ⟨h1, h2⟩ := h
          subst h1
          refine ⟨by simp [hetag], ?_⟩
          intro r0 hr0
          simp only [hetag, if_pos]
          exact fun hc => absurd hc.symm (Nat.ne_of_lt (hfresh r0 hr0))

/-- C2 witness: a one-row store with etag 7 and counter 8; the empty
patch is a no-op and the replace patch bumps the etag to 8. -/
theorem doUpdate_empty_noop_and_etag_changes_witness :
    ("etag" ∈ ["etag", "firstName"]) ∧
    (∀ r ∈ (Store.mk
      [⟨1, "r1", false, none, 7, "T0", "bob", [("firstName", JVal.str "Ada")]⟩]
      8).tbl, r.etag < 8) ∧
    (doUpdate (Store.mk
        [⟨1, "r1", false, none, 7, "T0", "bob", [("firstName", JVal.str "Ada")]⟩]
        8) ["etag", "firstName"] "r1" [] none "T1" "alice" =
      .ok (.noop, Store.mk
        [⟨1, "r1", false, none, 7, "T0", "bob", [("firstName", JVal.str "Ada")]⟩]
        8)) ∧
    (∀ r1 st1, doUpdate (Store.mk
        [⟨1, "r1", false, none, 7, "T0", "bob", [("firstName", JVal.str "Ada")]⟩]
        8) ["etag", "firstName"] "r1"
        [.replace ["firstName"] (.str "Augusta")] none "T1" "alice" =
        .ok (.updated r1, st1) →
      r1.etag = 8 ∧ ∀ r0 ∈ (Store.mk
        [⟨1, "r1", false, none, 7, "T0", "bob", [("firstName", JVal.str "Ada")]⟩]
        8).tbl, r1.etag ≠ r0.etag) := by
  refine ⟨by decide, by decide, ?_⟩
  exact doUpdate_empty_noop_and_etag_changes
    (Store.mk
      [⟨1, "r1", false, none, 7, "T0", "bob", [("firstName", JVal.str "Ada")]⟩]
      8) ["etag", "firstName"] "r1"
    [.replace ["firstName"] (.str "Augusta")] none "T1" "alice"
    (by decide) (by decide)

/-- C4: on a record whose lock carries event key `k1`, a delete under
event key `k2` is rejected with the locked-record message, but an update
of the very same record under `k2` is not: the guard in `doUpdate` reads
the closure variable `oldRec` before it is assigned, so the update
proceeds, rewrites the row and even clears the other user's lock. -/
theorem doUpdate_lock_check_dead :
    doDelete (Store.mk
      [⟨1, "r1", false, some ⟨"bob", some "k1"⟩, 7, "T0", "bob",
        [("firstName", JVal.str "Ada")]⟩] 8) "r1" (some "k2") false =
      .error "Record is locked by bob and cannot be updated." ∧
    doUpdate (Store.mk
      [⟨1, "r1", false, some ⟨"bob", some "k1"⟩, 7, "T0", "bob",
        [("firstName", JVal.str "Ada")]⟩] 8) ["etag", "firstName"] "r1"
      [.replace ["firstName"] (.str "Augusta")] (some "k2") "T1" "alice" =
      .ok (.updated ⟨1, "r1", false, none, 8, "T1", "alice",
        [("firstName", JVal.str "Augusta")]⟩,
        Store.mk [⟨1, "r1", false, none, 8, "T1", "alice",
          [("firstName", JVal.str "Augusta")]⟩] 9) := by
  exact ⟨rfl, rfl⟩

/-- C5: after a successful soft delete of an id, every row bearing that
id is flagged deleted, its pk is absent from every `getKeys` result
built without `showDeleted`, and it is still reachable — when the
criteria match — once `showDeleted` is set. -/
theorem softDelete_invisible (st : Store) (rid : String)
    (reqEk : Option String) (st1 : Store)
    (hpk : (st.tbl.map Row.pk).Nodup)
    (h : doDelete st rid reqEk false = .ok st1) :
    (∀ r ∈ st1.tbl, r.id = rid → r.isDeleted = true) ∧
    (∀ crit : Row → Bool, ∀ r ∈ st1.tbl, r.id = rid →
      r.pk ∉ getKeysRows st1.tbl false crit) ∧
    (∀ crit : Row → Bool, ∀ r ∈ st1.tbl, r.id = rid → crit r = true →
      r.pk ∈ getKeysRows st1.tbl true crit) := by
  have hst1 : st1.tbl = st.tbl.map
      (fun x => if x.id = rid then { x with isDeleted := true } else x) := by
    rw [doDelete] at h
    cases hf : st.tbl.find? (fun r => r.id = rid) with
    | none => rw [hf] at h; simp at h
    | some r =>
      rw [hf] at h
      by_cases hd : r.isDeleted
      · simp [hd] at h
      · simp [hd] at h
        cases hl : r.lock with
        | none =>
          rw [hl] at h
          simp at h
          subst h
          rfl
        | some l =>
          rw [hl] at h
          by_cases hk : l.eventKey = reqEk
          · simp [hk] at h
            subst h
            rfl
          · simp [hk] at h
  have hmap : ∀ r ∈ st1.tbl, r.id = rid → r.isDeleted = true := by
    intro r hr hid
    rw [hst1] at hr
    obtain ⟨x, hx, hxe⟩ := List.mem_map.mp hr
    by_cases hxid : x.id = rid
    · rw [if_pos hxid] at hxe
      rw [← hxe]
    · rw [if_neg hxid] at hxe
      rw [← hxe] at hid
      exact absurd hid hxid
  have hpk1 : (st1.tbl.map Row.pk).Nodup := by
    rw [hst1, List.map_map]
    have : (Row.pk ∘ fun x =>
        if x.id = rid then { x with isDeleted := true } else x) = Row.pk := by
      funext x
      by_cases hxid : x.id = rid <;> simp [hxid]
    rw [this]
    exact hpk
  refine ⟨hmap, ?_, ?_⟩
  · intro crit r hr hid hmem
    unfold getKeysRows at hmem
    obtain ⟨r2, hr2, hpke⟩ := List.mem_map.mp hmem
    have hr2t := List.mem_filter.mp hr2
    have heq : r2 = r := List.inj_on_of_nodup_map hpk1 hr2t.1 hr hpke
    have := hr2t.2
    rw [heq] at this
    simp [hmap r hr hid] at this
  · intro crit r hr hid hc
    unfold getKeysRows
    refine List.mem_map.mpr ⟨r, List.mem_filter.mpr ⟨hr, by simp [hc]⟩, rfl⟩

/-- C5 witness: soft deleting `r1` in a two-row store hides its pk from
an unrestricted query and shows it again under `showDeleted`. -/
theorem softDelete_invisible_witness :
    ((Store.mk [⟨1, "r1", false, none, 7, "T0", "bob", []⟩,
      ⟨2, "r2", false, none, 3, "T0", "bob", []⟩] 9).tbl.map Row.pk).Nodup ∧
    (doDelete (Store.mk [⟨1, "r1", false, none, 7, "T0", "bob", []⟩,
        ⟨2, "r2", false, none, 3, "T0", "bob", []⟩] 9) "r1" none false =
      .ok (Store.mk [⟨1, "r1", true, none, 7, "T0", "bob", []⟩,
        ⟨2, "r2", false, none, 3, "T0", "bob", []⟩] 9)) ∧
    ((∀ r ∈ (Store.mk [⟨1, "r1", true, none, 7, "T0", "bob", []⟩,
        ⟨2, "r2", false, none, 3, "T0", "bob", []⟩] 9).tbl,
      r.id = "r1" → r.isDeleted = true) ∧
    (∀ crit : Row → Bool, ∀ r ∈ (Store.mk
        [⟨1, "r1", true, none, 7, "T0", "bob", []⟩,
        ⟨2, "r2", false, none, 3, "T0", "bob", []⟩] 9).tbl, r.id = "r1" →
      r.pk ∉ getKeysRows (Store.mk
        [⟨1, "r1", true, none, 7, "T0", "bob", []⟩,
        ⟨2, "r2", false, none, 3, "T0", "bob", []⟩] 9).tbl false crit) ∧
    (∀ crit : Row → Bool, ∀ r ∈ (Store.mk
        [⟨1, "r1", true, none, 7, "T0", "bob", []⟩,
        ⟨2, "r2", false, none, 3, "T0", "bob", []⟩] 9).tbl, r.id = "r1" →
      crit r = true →
      r.pk ∈ getKeysRows (Store.mk
        [⟨1, "r1", true, none, 7, "T0", "bob", []⟩,
        ⟨2, "r2", false, none, 3, "T0", "bob", []⟩] 9).tbl true crit)) := by
  refine ⟨by decide, rfl, ?_⟩
  exact softDelete_invisible
    (Store.mk [⟨1, "r1", false, none, 7, "T0", "bob", []⟩,
      ⟨2, "r2", false, none, 3, "T0", "bob", []⟩] 9) "r1" none
    (Store.mk [⟨1, "r1", true, none, 7, "T0", "bob", []⟩,
      ⟨2, "r2", false, none, 3, "T0", "bob", []⟩] 9)
    (by decide) rfl

/-! ## CRUD: `doInsert` — id resolution and the natural-key uniqueness
probe (`src/server/services/crud.js` lines 280–427), and the pipeline
error normalization (`src/server/datasource.js` lines 1061–1078). -/

/-- Generic association-list lookup keyed by strings. -/
def lookupKey {α : Type} : List (String × α) → String → Option α
  | [], _ => none
  | (k', v) :: rest, k => if k' = k then some v else lookupKey rest k

/-- The slice of a feather property descriptor that `doInsert` reads for
id and uniqueness handling (`alias` is called `aliasName` here). -/
structure PropDef where
  isNaturalKey : Bool
  autonumber : Bool
  inheritedFrom : Option String
  aliasName : Option String

/-- A feather as `doInsert` consumes it: its name and ordered property
descriptors. -/
structure FeatherDef where
  name : String
  properties : List (String × PropDef)

/-- The single natural-key probe target: the first property with
`isNaturalKey` set and no `autonumber` (the `.some` walk at
crud.js lines 370–385 stops at the first hit). -/
def findNaturalKey (props : List (String × PropDef)) :
    Option (String × PropDef) :=
  props.find? (fun p => p.2.isNaturalKey && !p.2.autonumber)

/-- JavaScript string coercion of a value, as it appears inside a
concatenated message. -/
def jsToString : JVal → String
  | .str s => s
  | .num n => toString n
  | .bool true => "true"
  | .bool false => "false"
  | .null => "null"
  | .arr _ => ""
  | .obj _ => "[object Object]"

/-- The rejection message built in `afterUniqueCheck`
(crud.js lines 404–413): label is `alias || key`, the first feather is
`feather.name`, the second is `inheritedFrom || feather.name`. -/
def uniqueMsg (value label fname uf : String) : String :=
  "Value '" ++ value ++ "' assigned to " ++ toName label ++ " on " ++
    toName fname ++ " is not unique to data type " ++ toName uf ++ "."

/-- Whether the stored column holds SQL NULL (an absent or null field
value in the row model). -/
def sqlNullAt (r : Row) (col : String) : Bool :=
  match lookupField r.fields col with
  | none => true
  | some .null => true
  | some _ => false

/-- Row-level semantics of the SQL fragment that the uniqueness probe
compiles: `doInsert` issues `tools.getKeys` with the single criterion
`{property: unique.prop, value: unique.value}` and the default `=`
operator, so the relevant branch of the criteria compiler
(`src/unnamed/part_006` lines 349–371) applies:
a JavaScript `null` value reads `.id` off null and throws a `TypeError`
(the same path the C7 theorem proves); an object value with a truthy
`id` compares the relation's `id`; any other object, or an array,
compiles `<col> IS NULL`, matching rows whose stored value is null; a
scalar value compiles `<col> = $1`, plain equality on the bound
parameter, which a stored null or differently-typed column never
matches. -/
def natKeyMatcher (k : String) : JVal → Except String (Row → Bool)
  | .null => .error "TypeError: Cannot read properties of null (reading 'id')"
  | .obj fs =>
    (match lookupField fs "id" with
     | some i =>
       if truthy i then
         .ok (fun r =>
           match lookupField r.fields k with
           | some (.obj wfs) =>
             (match lookupField wfs "id" with
              | some j => jeq j i
              | none => false)
           | _ => false)
       else .ok (fun r => sqlNullAt r k)
     | none => .ok (fun r => sqlNullAt r k))
  | .arr _ => .ok (fun r => sqlNullAt r k)
  | v =>
    .ok (fun r =>
      match lookupField r.fields k with
      | some w => jeq w v
      | none => false)

/-- `doInsert` through its check phase (`afterGetFeather` /
`afterIdCheck` / `afterUniqueCheck`), followed by the row insertion the
later phases perform.  Unknown data keys are rejected; a falsy or
colliding id is replaced by a freshly generated one (`tools.getKey`
honours `NOT is_deleted`); the single natural-key probe runs
`tools.getKeys` — whose criterion compiles per `natKeyMatcher` and whose
`WHERE` clause keeps only live rows — and rejects with the uniqueness
message when the probe returns keys.  An absent natural-key value is
sent as a null parameter, `<col> = NULL` matches no row, and the insert
proceeds.  The fresh-value counter stands in for the random id generator
and the `_pk`/etag sequences; only freshness matters to the claims.
Property defaulting, autonumbering and relation handling of the later
insert phases are outside the claims and are not modelled. -/
def doInsertStep (st : Store) (f : FeatherDef) (data : List (String × JVal))
    (now user : String) : Except String (Row × Store) :=
  match data.find? (fun p => (lookupKey f.properties p.1).isNone) with
  | some p =>
    .error ("Feather \"" ++ f.name ++ "\" does not contain property \"" ++
      p.1 ++ "\"")
  | none =>
    let newId : String :=
      match lookupField data "id" with
      | none => toString st.nextId
      | some v =>
        if !truthy v then toString st.nextId
        else
          let s := jsToString v
          if st.tbl.any (fun r => !r.isDeleted && r.id = s) then
            toString st.nextId
          else s
    let insertRow : Except String (Row × Store) :=
      let row : Row := ⟨st.nextId, newId, false, none, st.nextId, now, user,
        setField data "id" (.str newId)⟩
      .ok (row, ⟨st.tbl ++ [row], st.nextId + 1⟩)
    match findNaturalKey f.properties with
    | some (k, fp) =>
      (match lookupField data k with
       | some uv =>
         (match natKeyMatcher k uv with
          | .error e => .error e
          | .ok m =>
            if st.tbl.any (fun r => !r.isDeleted && m r) then
              .error (uniqueMsg (jsToString uv)
                (fp.aliasName.getD k) f.name (fp.inheritedFrom.getD f.name))
            else insertRow)
       | none => insertRow)
    | none => insertRow

/-- An error object as the pipeline sees it: a message and an optional
`statusCode`. -/
structure ErrObj where
  message : String
  statusCode : Option Nat
deriving DecidableEq

/-- The `error` normalizer of `datasource.request`
(`src/server/datasource.js` lines 1061–1078): a string is wrapped into
an error object, and a missing `statusCode` defaults to 500. -/
def normalizeError : Sum String ErrObj → ErrObj
  | .inl s => ⟨s, some 500⟩
  | .inr e => ⟨e.message, some (e.statusCode.getD 500)⟩

/-- A bare `Error(msg)` rejection (no `statusCode` of its own) surfaces
through `normalizeError` with the default status 500. -/
def errorStatusIs500 (msg : String) : Prop :=
  normalizeError (.inr ⟨msg, none⟩) = ⟨msg, some 500⟩

/-- C3 counterexample: the duplicate natural-key rejection carries no
`statusCode` (crud.js rejects a bare `Error`), so the pipeline default
makes the surfaced status 500, not 409; the message is exactly the one
the claim states. -/
theorem doInsert_unique_status_counterexample :
    doInsertStep
      (Store.mk [⟨1, "c1", false, none, 1, "T0", "u",
        [("lastName", JVal.str "Lovelace")]⟩] 2)
      (FeatherDef.mk "Contact"
        [("firstName", ⟨false, false, none, none⟩),
         ("lastName", ⟨true, false, none, none⟩)])
      [("firstName", JVal.str "Mary"), ("lastName", JVal.str "Lovelace")]
      "T1" "u2" =
      .error "Value 'Lovelace' assigned to Last Name on Contact is not unique to data type Contact." ∧
    normalizeError (.inr ⟨"Value 'Lovelace' assigned to Last Name on Contact is not unique to data type Contact.", none⟩) =
      ⟨"Value 'Lovelace' assigned to Last Name on Contact is not unique to data type Contact.", some 500⟩ ∧
    (500 : Nat) ≠ 409 := by
  exact ⟨rfl, rfl, by decide⟩

/-- C3, amended: when the first non-autonumber natural-key property of
the feather holds a value matched by some live record under the probe's
compiled criterion (`natKeyMatcher`: plain equality for scalar values,
`IS NULL` for arrays and for objects without a truthy id, relation-id
equality for objects with one), `doInsert` rejects with the message
`Value '<value>' assigned to <Label> on <Feather> is not unique to data
type <Feather>.`; the error carries no status code of its own and the
pipeline surfaces it with the default status 500 (no 409 is assigned
anywhere); exactly that first property is probed.  A null natural-key
value never reaches the uniqueness message: the criteria compiler
throws, and the same insert is rejected with its `TypeError` instead. -/
theorem doInsert_natural_key_unique_probe (st : Store) (f : FeatherDef)
    (data : List (String × JVal)) (now user : String)
    (k : String) (fp : PropDef) (v : JVal) (m : Row → Bool)
    (hvalid : ∀ p ∈ data, (lookupKey f.properties p.1).isSome)
    (hnk : findNaturalKey f.properties = some (k, fp))
    (hval : lookupField data k = some v)
    (hm : natKeyMatcher k v = .ok m)
    (hdup : ∃ r ∈ st.tbl, r.isDeleted = false ∧ m r = true) :
    (doInsertStep st f data now user =
      .error (uniqueMsg (jsToString v) (fp.aliasName.getD k) f.name
        (fp.inheritedFrom.getD f.name)) ∧
    errorStatusIs500 (uniqueMsg (jsToString v) (fp.aliasName.getD k) f.name
      (fp.inheritedFrom.getD f.name))) ∧
    (∀ data2 : List (String × JVal),
      (∀ p ∈ data2, (lookupKey f.properties p.1).isSome) →
      lookupField data2 k = some .null →
      doInsertStep st f data2 now user =
        .error "TypeError: Cannot read properties of null (reading 'id')") := by
  have hdup2 : st.tbl.any (fun r => !r.isDeleted && m r) = true := by
    rw [List.any_eq_true]
    obtain ⟨r, hr, hdel, hmr⟩ := hdup
    exact ⟨r, hr, by rw [hdel, hmr]; simp⟩
  refine ⟨⟨?_, rfl⟩, ?_⟩
  · have hfind : data.find? (fun p => (lookupKey f.properties p.1).isNone) =
        none := by
      rw [List.find?_eq_none]
      intro p hp
      have := hvalid p hp
      simp [Option.isNone_iff_eq_none]
      exact Option.isSome_iff_ne_none.mp this
    rw [doInsertStep, hfind]
    simp only [hnk, hval, hm]
    rw [if_pos hdup2]
  · intro data2 hvalid2 hnull
    have hfind2 : data2.find? (fun p => (lookupKey f.properties p.1).isNone) =
        none := by
      rw [List.find?_eq_none]
      intro p hp
      have := hvalid2 p hp
      simp [Option.isNone_iff_eq_none]
      exact Option.isSome_iff_ne_none.mp this
    rw [doInsertStep, hfind2]
    simp only [hnk, hnull]
    rfl

/-- C3 witness: the Contact feather with two natural-key properties;
inserting a second `Lovelace` is rejected with the message naming the
first natural key (`lastName`), and the surfaced status is 500. -/
theorem doInsert_natural_key_unique_probe_witness :
    (∀ p ∈ [("lastName", JVal.str "Lovelace"), ("email", JVal.str "x@y")],
      (lookupKey (FeatherDef.mk "Contact"
        [("lastName", ⟨true, false, none, none⟩),
         ("email", ⟨true, false, none, none⟩)]).properties p.1).isSome) ∧
    natKeyMatcher "lastName" (JVal.str "Lovelace") =
      .ok (fun r =>
        match lookupField r.fields "lastName" with
        | some w => jeq w (JVal.str "Lovelace")
        | none => false) ∧
    (doInsertStep
      (Store.mk [⟨1, "c1", false, none, 1, "T0", "u",
        [("lastName", JVal.str "Lovelace"), ("email", JVal.str "x@y")]⟩] 2)
      (FeatherDef.mk "Contact"
        [("lastName", ⟨true, false, none, none⟩),
         ("email", ⟨true, false, none, none⟩)])
      [("lastName", JVal.str "Lovelace"), ("email", JVal.str "x@y")]
      "T1" "u2" =
      .error (uniqueMsg "Lovelace" "lastName" "Contact" "Contact") ∧
    errorStatusIs500 (uniqueMsg "Lovelace" "lastName" "Contact" "Contact")) := by
  refine ⟨by decide, rfl, ?_⟩
  exact (doInsert_natural_key_unique_probe
    (Store.mk [⟨1, "c1", false, none, 1, "T0", "u",
      [("lastName", JVal.str "Lovelace"), ("email", JVal.str "x@y")]⟩] 2)
    (FeatherDef.mk "Contact"
      [("lastName", ⟨true, false, none, none⟩),
       ("email", ⟨true, false, none, none⟩)])
    [("lastName", JVal.str "Lovelace"), ("email", JVal.str "x@y")]
    "T1" "u2" "lastName" ⟨true, false, none, none⟩ (JVal.str "Lovelace")
    (fun r =>
      match lookupField r.fields "lastName" with
      | some w => jeq w (JVal.str "Lovelace")
      | none => false)
    (by decide) rfl rfl rfl
    ⟨⟨1, "c1", false, none, 1, "T0", "u",
      [("lastName", JVal.str "Lovelace"), ("email", JVal.str "x@y")]⟩,
      List.mem_singleton_self _, rfl, rfl⟩).1

/-- C9: a direct `doInsert` whose `data.id` matches a live record does
not reject and does not touch the existing record: the id is silently
replaced by a freshly generated one and a new row is appended under it. -/
theorem doInsert_id_collision_regenerates (st : Store) (f : FeatherDef)
    (data : List (String × JVal)) (now user : String) (v : String)
    (hvalid : ∀ p ∈ data, (lookupKey f.properties p.1).isSome)
    (hidval : lookupField data "id" = some (.str v))
    (htruthy : v ≠ "")
    (hexist : ∃ r ∈ st.tbl, r.isDeleted = false ∧ r.id = v)
    (hnonat : findNaturalKey f.properties = none) :
    ∃ row st1, doInsertStep st f data now user = .ok (row, st1) ∧
      row.id = toString st.nextId ∧
      st1.tbl = st.tbl ++ [row] ∧
      ((∀ r ∈ st.tbl, r.id ≠ toString st.nextId) → row.id ≠ v) := by
  have hfind : data.find? (fun p => (lookupKey f.properties p.1).isNone) =
      none := by
    rw [List.find?_eq_none]
    intro p hp
    have := hvalid p hp
    simp [Option.isNone_iff_eq_none]
    exact Option.isSome_iff_ne_none.mp this
  have hany : st.tbl.any (fun r => !r.isDeleted && r.id = v) = true := by
    rw [List.any_eq_true]
    obtain ⟨r, hr, hdel, hid⟩ := hexist
    exact ⟨r, hr, by rw [hdel, hid]; simp⟩
  refine ⟨⟨st.nextId, toString st.nextId, false, none, st.nextId, now, user,
    setField data "id" (.str (toString st.nextId))⟩,
    ⟨st.tbl ++ [⟨st.nextId, toString st.nextId, false, none, st.nextId, now,
      user, setField data "id" (.str (toString st.nextId))⟩], st.nextId + 1⟩,
    ?_, rfl, rfl, ?_⟩
  · rw [doInsertStep, hfind]
    simp only [hnonat, hidval]
    simp [truthy, htruthy, jsToString, hany]
  · intro hfresh hcontra
    obtain ⟨r, hr, _, hid⟩ := hexist
    exact hfresh r hr (by rw [hid, ← hcontra])

/-- C9 witness: inserting with the already-taken id `c1` appends a new
row under the fresh id `2` and leaves the store's rows intact. -/
theorem doInsert_id_collision_regenerates_witness :
    (∀ p ∈ [("id", JVal.str "c1"), ("firstName", JVal.str "Mary")],
      (lookupKey (FeatherDef.mk "Contact"
        [("id", ⟨false, false, none, none⟩),
         ("firstName", ⟨false, false, none, none⟩)]).properties p.1).isSome) ∧
    ("c1" : String) ≠ "" ∧
    (∃ row st1, doInsertStep
        (Store.mk [⟨1, "c1", false, none, 1, "T0", "u", []⟩] 2)
        (FeatherDef.mk "Contact"
          [("id", ⟨false, false, none, none⟩),
           ("firstName", ⟨false, false, none, none⟩)])
        [("id", JVal.str "c1"), ("firstName", JVal.str "Mary")]
        "T1" "u2" = .ok (row, st1) ∧
      row.id = toString (2 : Nat) ∧
      st1.tbl = (Store.mk [⟨1, "c1", false, none, 1, "T0", "u", []⟩] 2).tbl ++
        [row] ∧
      ((∀ r ∈ (Store.mk [⟨1, "c1", false, none, 1, "T0", "u", []⟩] 2).tbl,
        r.id ≠ toString (2 : Nat)) → row.id ≠ "c1")) := by
  refine ⟨by decide, by decide, ?_⟩
  exact doInsert_id_collision_regenerates
    (Store.mk [⟨1, "c1", false, none, 1, "T0", "u", []⟩] 2)
    (FeatherDef.mk "Contact"
      [("id", ⟨false, false, none, none⟩),
       ("firstName", ⟨false, false, none, none⟩)])
    [("id", JVal.str "c1"), ("firstName", JVal.str "Mary")]
    "T1" "u2" "c1" (by decide) rfl (by decide)
    ⟨⟨1, "c1", false, none, 1, "T0", "u", []⟩,
      List.mem_singleton_self _, rfl, rfl⟩ rfl

/-! ## Pipeline upsert: `doUpsert` in `datasource.request`
(`src/server/datasource.js` lines 1359–1438) — the `overlay` merge and
the JSON-patch diff handed to the PATCH downgrade. -/

/-- Whether a value is a JavaScript array. -/
def isArrB : JVal → Bool
  | .arr _ => true
  | _ => false

/-- Property read `nw[k]` during `overlay` (`undefined` on
non-objects). -/
def getFieldJ : JVal → String → Option JVal
  | .obj fs, k => lookupField fs k
  | _, _ => none

/-- Property assignment `nw[k] = v` during `overlay`; `datasource.js`
runs in strict mode, so assigning onto a primitive throws.  A JavaScript
array accepts named properties (they are invisible to JSON and the
modelled fragment never reaches this case). -/
def setFieldJ : JVal → String → JVal → Except String JVal
  | .obj fs, k, v => .ok (.obj (setField fs k v))
  | .arr xs, _, _ => .ok (.arr xs)
  | .null, _, _ => .error "TypeError: Cannot set properties of null"
  | _, _, _ => .error "TypeError: Cannot create property on a primitive value"

-- The overlay of doUpsert (datasource.js lines 1371-1415): walk the old
-- record's keys; a missing non-array field is copied from the old
-- record; a missing or null array field takes the whole old array; an
-- array present on both sides is merged element-wise, surplus old
-- positions becoming null; a non-array new value under an array-valued
-- old key throws "Array expected".  (The message tail naming objectType
-- and id, and the character-indexed iteration JavaScript would perform
-- on string-valued old positions, are elided; the claim theorems keep
-- old arrays populated with record objects.)
mutual

def overlay (nw old : JVal) : Except String JVal :=
  match old with
  | .obj ofs => overlayFields nw ofs
  | .null => .error "TypeError: Cannot convert undefined or null to object"
  | _ => .ok nw

def overlayFields (nw : JVal) (ofs : List (String × JVal)) :
    Except String JVal :=
  match ofs with
  | [] => .ok nw
  | (k, ov) :: rest =>
    match ov with
    | .arr oxs =>
      (match getFieldJ nw k with
       | none =>
         (match setFieldJ nw k (.arr oxs) with
          | .ok nw1 => overlayFields nw1 rest
          | .error e => .error e)
       | some .null =>
         (match setFieldJ nw k (.arr oxs) with
          | .ok nw1 => overlayFields nw1 rest
          | .error e => .error e)
       | some (.arr nxs) =>
         (match overlayArr nxs oxs with
          | .ok merged =>
            (match setFieldJ nw k (.arr merged) with
             | .ok nw1 => overlayFields nw1 rest
             | .error e => .error e)
          | .error e => .error e)
       | some _ =>
         .error ("Array expected for property \"" ++ k ++ "\""))
    | _ =>
      (match getFieldJ nw k with
       | none =>
         (match setFieldJ nw k ov with
          | .ok nw1 => overlayFields nw1 rest
          | .error e => .error e)
       | some _ => overlayFields nw rest)

def overlayArr (nxs oxs : List JVal) : Except String (List JVal) :=
  match oxs, nxs with
  | [], ns => .ok ns
  | _ :: os, [] =>
    (match overlayArr [] os with
     | .ok rest => .ok (.null :: rest)
     | .error e => .error e)
  | o :: os, n :: ns =>
    (match overlay n o with
     | .ok h =>
       (match overlayArr ns os with
        | .ok t => .ok (h :: t)
        | .error e => .error e)
     | .error e => .error e)

end

/-- The add operations for keys present only in the new document. -/
def genAdds (path : List String) (ofs nfs : List (String × JVal)) :
    List PatchOp :=
  nfs.filterMap (fun p =>
    match lookupField ofs p.1 with
    | some _ => none
    | none => some (.add (path ++ [p.1]) p.2))

-- jsonpatch.compare of the fast-json-patch dependency: walk the old
-- document's keys (arrays via their index keys); a key absent from the
-- new document yields remove, a pair of like containers recurses, a
-- changed value yields replace; keys only in the new document yield
-- add.
mutual

def genPatch (path : List String) (old nw : JVal) : List PatchOp :=
  match old, nw with
  | .obj ofs, .obj nfs => genRR path ofs nfs ++ genAdds path ofs nfs
  | .arr xs, .arr ys =>
    genRR path (idxPairs 0 xs) (idxPairs 0 ys) ++
      genAdds path (idxPairs 0 xs) (idxPairs 0 ys)
  | o, n => if jeq o n then [] else [.replace path n]
termination_by jSize old
decreasing_by
  all_goals simp [jSize, jSizeF, jSizeL, jSizeF_idxPairs]

def genRR (path : List String) (ofs nfs : List (String × JVal)) :
    List PatchOp :=
  match ofs with
  | [] => []
  | (k, ov) :: rest =>
    (match lookupField nfs k with
     | none => [PatchOp.remove (path ++ [k])]
     | some nv =>
       (match ov, nv with
        | .obj os2, .obj ns2 => genPatch (path ++ [k]) (.obj os2) (.obj ns2)
        | .arr oxs, .arr nxs => genPatch (path ++ [k]) (.arr oxs) (.arr nxs)
        | o2, n2 => if jeq o2 n2 then [] else [.replace (path ++ [k]) n2]))
    ++ genRR path rest nfs
termination_by jSizeF ofs
decreasing_by
  all_goals simp [jSize, jSizeF, jSizeL, jSizeF_idxPairs]
  all_goals omega

end

/-- `jsonpatch.compare(old, new)`. -/
def comparePatch (old nw : JVal) : List PatchOp :=
  genPatch [] old nw

/-- The outcome of the upsert check: either the request was downgraded
to a PATCH whose data is the generated patch, or no row existed and the
POST proceeds with `data.id` set to the requested id. -/
inductive UpsertResult where
  | patch (ops : List PatchOp)
  | post (data : JVal)

/-- The `callback` of `doUpsert` (`datasource.js` lines 1417–1430): an
existing row makes the method PATCH with
`jsonpatch.compare(resp, overlay(data, resp))` as data; otherwise
`data.id = obj.id` and the insert goes ahead. -/
def upsertCallback (resp : Option JVal) (data : JVal) (rid : String) :
    Except String UpsertResult :=
  match resp with
  | some r =>
    (match overlay data r with
     | .ok d => .ok (.patch (comparePatch r d))
     | .error e => .error e)
  | none =>
    (match setFieldJ data "id" (.str rid) with
     | .ok d => .ok (.post d)
     | .error e => .error e)

/-- The overlay as the claim words it, read literally: the existing row
with `null` overlaid for the fields missing from the new data, except
nested arrays, whose values are preserved. -/
def specNullOverlay (old nw : JVal) : JVal :=
  match old, nw with
  | .obj ofs, .obj nfs =>
    .obj (ofs.map (fun p =>
      match lookupField nfs p.1 with
      | some _ => p
      | none =>
        (match p.2 with
         | .arr xs => (p.1, JVal.arr xs)
         | _ => (p.1, JVal.null))))
  | _, _ => old

-- The fragment of records the C1 theorem quantifies over: arrays on the
-- old record hold child-record objects with unique field keys (strings
-- or nulls in an old array position would make JavaScript iterate
-- character indices or throw, which no persisted record produces).
mutual

def recLikeOF : List (String × JVal) → Bool
  | [] => true
  | (_, v) :: rest => recLikeOV v && recLikeOF rest
termination_by fs => jSizeF fs
decreasing_by all_goals simp [jSize, jSizeF, jSizeL] <;> omega

def recLikeOV : JVal → Bool
  | .arr xs => recLikeOL xs
  | _ => true
termination_by v => jSize v
decreasing_by all_goals simp [jSize, jSizeF, jSizeL] <;> omega

def recLikeOL : List JVal → Bool
  | [] => true
  | x :: rest => recLikeOE x && recLikeOL rest
termination_by xs => jSizeL xs
decreasing_by all_goals simp [jSize, jSizeF, jSizeL] <;> omega

def recLikeOE : JVal → Bool
  | .obj fs => decide ((fs.map Prod.fst).Nodup) && recLikeOF fs
  | _ => false
termination_by x => jSize x
decreasing_by all_goals simp [jSize, jSizeF, jSizeL] <;> omega

end

-- Compatibility of the incoming data with the old record: wherever the
-- old record has an array-valued field, the new data holds nothing,
-- null, or an array whose paired elements are again compatible records
-- (anything else makes overlay throw "Array expected").
mutual

def compatV (nfs : List (String × JVal)) (k : String) : JVal → Bool
  | .arr oxs =>
    (match lookupField nfs k with
     | none => true
     | some .null => true
     | some (.arr nxs) => compatL nxs oxs
     | some _ => false)
  | _ => true
termination_by ov => jSize ov
decreasing_by all_goals simp [jSize, jSizeF, jSizeL] <;> omega

def compatF : List (String × JVal) → List (String × JVal) → Bool
  | _, [] => true
  | nfs, (k, ov) :: rest => compatV nfs k ov && compatF nfs rest
termination_by _ ofs => jSizeF ofs
decreasing_by all_goals simp [jSize, jSizeF, jSizeL] <;> omega

def compatL : List JVal → List JVal → Bool
  | _, [] => true
  | [], _ :: _ => true
  | n :: ns, o :: os => compatE n o && compatL ns os
termination_by _ oxs => jSizeL oxs
decreasing_by all_goals simp [jSize, jSizeF, jSizeL] <;> omega

def compatE : JVal → JVal → Bool
  | _, .obj [] => true
  | n, .obj ofs =>
    (match n with
     | .obj nfs => compatF nfs ofs
     | _ => false)
  | _, _ => true
termination_by _ o => jSize o
decreasing_by all_goals simp [jSize, jSizeF, jSizeL] <;> omega

end

theorem lookupField_cons (k' k : String) (v : JVal)
    (rest : List (String × JVal)) :
    lookupField ((k', v) :: rest) k =
      if k' = k then some v else lookupField rest k := rfl

theorem lookupField_eq_none (fs : List (String × JVal)) (k : String)
    (h : k ∉ fs.map Prod.fst) : lookupField fs k = none := by
  induction fs with
  | nil => rfl
  | cons p rest ih =>
    obtain ⟨k', v⟩ := p
    simp only [List.map_cons, List.mem_cons] at h
    push_neg at h
    rw [lookupField_cons, if_neg (fun he => h.1 he.symm)]
    exact ih h.2

theorem lookupField_setField_self (fs : List (String × JVal)) (k : String)
    (v : JVal) : lookupField (setField fs k v) k = some v := by
  induction fs with
  | nil => simp [setField, lookupField]
  | cons p rest ih =>
    obtain ⟨k', v'⟩ := p
    by_cases h : k' = k
    · simp [setField, h, lookupField]
    · simp only [setField, if_neg h]
      rw [lookupField_cons, if_neg h]
      exact ih

theorem lookupField_setField_ne (fs : List (String × JVal)) (k' k : String)
    (v : JVal) (h : k' ≠ k) :
    lookupField (setField fs k' v) k = lookupField fs k := by
  induction fs with
  | nil => simp [setField, lookupField, h]
  | cons p rest ih =>
    obtain ⟨k₁, v₁⟩ := p
    by_cases h1 : k₁ = k'
    · subst h1
      have hs : setField ((k₁, v₁) :: rest) k₁ v = (k₁, v) :: rest := by
        simp [setField]
      rw [hs, lookupField_cons, lookupField_cons, if_neg h, if_neg h]
    · simp only [setField, if_neg h1]
      rw [lookupField_cons, lookupField_cons]
      by_cases h2 : k₁ = k
      · simp [h2]
      · simp only [if_neg h2]
        exact ih

theorem compatV_congr (k : String) (ov : JVal)
    (nfs nfs1 : List (String × JVal))
    (hk : lookupField nfs1 k = lookupField nfs k) :
    compatV nfs1 k ov = compatV nfs k ov := by
  cases ov
  case arr oxs =>
    simp only [compatV]
    rw [hk]
  all_goals simp [compatV]

theorem compatF_congr (ofs : List (String × JVal))
    (nfs nfs1 : List (String × JVal))
    (h : ∀ k ∈ ofs.map Prod.fst, lookupField nfs1 k = lookupField nfs k) :
    compatF nfs1 ofs = compatF nfs ofs := by
  induction ofs with
  | nil => simp [compatF]
  | cons p rest ih =>
    obtain ⟨k, ov⟩ := p
    have hk : lookupField nfs1 k = lookupField nfs k := h k (by simp)
    have hr : ∀ k2 ∈ rest.map Prod.fst,
        lookupField nfs1 k2 = lookupField nfs k2 := by
      intro k2 hk2
      exact h k2 (by simp [hk2])
    simp only [compatF]
    rw [compatV_congr k ov nfs nfs1 hk, ih hr]

/-- Rewrite for the non-array-field step of `overlayFields`. -/
theorem overlayFields_cons_nonarr (nw : JVal) (k₀ : String) (ov : JVal)
    (rest : List (String × JVal)) (hov : isArrB ov = false) :
    overlayFields nw ((k₀, ov) :: rest) =
      (match getFieldJ nw k₀ with
       | none =>
         (match setFieldJ nw k₀ ov with
          | .ok nw1 => overlayFields nw1 rest
          | .error e => .error e)
       | some _ => overlayFields nw rest) := by
  cases ov
  case arr => simp [isArrB] at hov
  all_goals rfl

theorem isArrB_eq_true_iff (v : JVal) : isArrB v = true ↔ ∃ xs, v = .arr xs := by
  cases v <;> simp [isArrB]

/-- When the new record carries no array at all, every old element
position is overwritten with `null` (the surplus-element rule). -/
theorem overlayArr_nil_new (oxs : List JVal) :
    overlayArr [] oxs = .ok (List.replicate oxs.length JVal.null) := by
  induction oxs with
  | nil => simp [overlayArr]
  | cons o os ih => simp [overlayArr, ih, List.replicate_succ]

/-- Combine the overlay conclusions for the tail of a field list with
the facts about the head key into the conclusions for the whole list:
`nfs1` is the new-data field list after the head step (`nfs` itself or
`setField nfs k₀ x`). -/
theorem consConclusions (k₀ : String) (ov : JVal)
    (rest nfs nfs1 gs : List (String × JVal))
    (hne : ∀ k, k₀ ≠ k → lookupField nfs1 k = lookupField nfs k)
    (ha : ∀ k, lookupField rest k = none →
      lookupField gs k = lookupField nfs1 k)
    (hb2 : ∀ k v, lookupField rest k = some v → isArrB v = false →
      lookupField nfs1 k = none → lookupField gs k = some v)
    (hc2 : ∀ k v w, lookupField rest k = some v → isArrB v = false →
      lookupField nfs1 k = some w → lookupField gs k = some w)
    (hd2 : ∀ k xs, lookupField rest k = some (.arr xs) →
      (lookupField nfs1 k = none ∨ lookupField nfs1 k = some JVal.null) →
      lookupField gs k = some (.arr xs))
    (hb0 : lookupField nfs k₀ = none → isArrB ov = false →
      lookupField gs k₀ = some ov)
    (hc0 : ∀ w, lookupField nfs k₀ = some w → isArrB ov = false →
      lookupField gs k₀ = some w)
    (hd0 : ∀ xs, ov = .arr xs →
      (lookupField nfs k₀ = none ∨ lookupField nfs k₀ = some JVal.null) →
      lookupField gs k₀ = some (.arr xs)) :
    (∀ k, lookupField ((k₀, ov) :: rest) k = none →
      lookupField gs k = lookupField nfs k) ∧
    (∀ k v, lookupField ((k₀, ov) :: rest) k = some v → isArrB v = false →
      lookupField nfs k = none → lookupField gs k = some v) ∧
    (∀ k v w, lookupField ((k₀, ov) :: rest) k = some v → isArrB v = false →
      lookupField nfs k = some w → lookupField gs k = some w) ∧
    (∀ k xs, lookupField ((k₀, ov) :: rest) k = some (.arr xs) →
      (lookupField nfs k = none ∨ lookupField nfs k = some JVal.null) →
      lookupField gs k = some (.arr xs)) := by
  refine ⟨?_, ?_, ?_, ?_⟩
  · intro k hk
    rw [lookupField_cons] at hk
    by_cases hkk : k₀ = k
    · rw [if_pos hkk] at hk; exact nomatch hk
    · rw [if_neg hkk] at hk
      rw [ha k hk]
      exact hne k hkk
  · intro k v hk hvarr hnfk
    rw [lookupField_cons] at hk
    by_cases hkk : k₀ = k
    · rw [if_pos hkk] at hk
      injection hk with hv
      subst hkk
      rw [← hv] at hvarr ⊢
      exact hb0 hnfk hvarr
    · rw [if_neg hkk] at hk
      refine hb2 k v hk hvarr ?_
      rw [hne k hkk]
      exact hnfk
  · intro k v w hk hvarr hnfk
    rw [lookupField_cons] at hk
    by_cases hkk : k₀ = k
    · rw [if_pos hkk] at hk
      injection hk with hv
      subst hkk
      rw [← hv] at hvarr
      exact hc0 w hnfk hvarr
    · rw [if_neg hkk] at hk
      refine hc2 k v w hk hvarr ?_
      rw [hne k hkk]
      exact hnfk
  · intro k xs hk hnull
    rw [lookupField_cons] at hk
    by_cases hkk : k₀ = k
    · rw [if_pos hkk] at hk
      injection hk with hv
      subst hkk
      exact hd0 xs hv hnull
    · rw [if_neg hkk] at hk
      refine hd2 k xs hk ?_
      rw [hne k hkk]
      exact hnull

-- The overlay succeeds on the modelled record fragment and implements:
-- missing non-array fields keep the old value, missing or null array
-- fields take the whole old array, paired arrays merge element-wise.
mutual

theorem overlayFields_spec (ofs nfs : List (String × JVal))
    (hrec : recLikeOF ofs = true) (hcompat : compatF nfs ofs = true)
    (hnodup : (ofs.map Prod.fst).Nodup) :
    ∃ gs, overlayFields (.obj nfs) ofs = .ok (.obj gs) ∧
      (∀ k, lookupField ofs k = none →
        lookupField gs k = lookupField nfs k) ∧
      (∀ k v, lookupField ofs k = some v → isArrB v = false →
        lookupField nfs k = none → lookupField gs k = some v) ∧
      (∀ k v w, lookupField ofs k = some v → isArrB v = false →
        lookupField nfs k = some w → lookupField gs k = some w) ∧
      (∀ k xs, lookupField ofs k = some (.arr xs) →
        (lookupField nfs k = none ∨ lookupField nfs k = some JVal.null) →
        lookupField gs k = some (.arr xs)) := by
  match ofs with
  | [] =>
    refine ⟨nfs, by simp [overlayFields], fun k _ => rfl, ?_, ?_, ?_⟩
    · intro k v hk
      exact nomatch hk
    · intro k v w hk
      exact nomatch hk
    · intro k xs hk
      exact nomatch hk
  | (k₀, ov) :: rest =>
    match ov with
    | .arr oxs =>
      have hrecs : recLikeOL oxs = true ∧ recLikeOF rest = true := by
        have h := hrec
        simp only [recLikeOF, recLikeOV, Bool.and_eq_true] at h
        exact h
      have hcomps : compatV nfs k₀ (.arr oxs) = true ∧
          compatF nfs rest = true := by
        have h := hcompat
        simp only [compatF, Bool.and_eq_true] at h
        exact h
      have hnd : k₀ ∉ rest.map Prod.fst ∧ (rest.map Prod.fst).Nodup := by
        have h := hnodup
        simp only [List.map_cons, List.nodup_cons] at h
        exact h
      have hrestNone : lookupField rest k₀ = none :=
        lookupField_eq_none rest k₀ hnd.1
      have hneOf : ∀ (x : JVal) (k : String), k₀ ≠ k →
          lookupField (setField nfs k₀ x) k = lookupField nfs k :=
        fun x k hkk => lookupField_setField_ne nfs k₀ k x hkk
      have hcongr : ∀ x : JVal, compatF (setField nfs k₀ x) rest = true := by
        intro x
        rw [compatF_congr rest nfs _ (fun k2 hk2 =>
          hneOf x k2 (fun he => hnd.1 (he ▸ hk2)))]
        exact hcomps.2
      have hcV := hcomps.1
      simp only [compatV] at hcV
      cases hnf : lookupField nfs k₀ with
      | none =>
        obtain ⟨gs, hgs, ha, hb2, hc2, hd2⟩ :=
          overlayFields_spec rest (setField nfs k₀ (.arr oxs))
            hrecs.2 (hcongr (.arr oxs)) hnd.2
        refine ⟨gs, ?_, ?_⟩
        · simp only [overlayFields, getFieldJ, hnf, setFieldJ]
          exact hgs
        · refine consConclusions k₀ (.arr oxs) rest nfs _ gs
            (hneOf (.arr oxs)) ha hb2 hc2 hd2 ?_ ?_ ?_
          · intro _ habs
            simp [isArrB] at habs
          · intro w hw
            rw [hnf] at hw
            exact nomatch hw
          · intro xs hxs _
            injection hxs with he
            rw [ha k₀ hrestNone, lookupField_setField_self, he]
      | some nv =>
        rw [hnf] at hcV
        cases nv with
        | null =>
          obtain ⟨gs, hgs, ha, hb2, hc2, hd2⟩ :=
            overlayFields_spec rest (setField nfs k₀ (.arr oxs))
              hrecs.2 (hcongr (.arr oxs)) hnd.2
          refine ⟨gs, ?_, ?_⟩
          · simp only [overlayFields, getFieldJ, hnf, setFieldJ]
            exact hgs
          · refine consConclusions k₀ (.arr oxs) rest nfs _ gs
              (hneOf (.arr oxs)) ha hb2 hc2 hd2 ?_ ?_ ?_
            · intro _ habs
              simp [isArrB] at habs
            · intro w _ habs
              simp [isArrB] at habs
            · intro xs hxs _
              injection hxs with he
              rw [ha k₀ hrestNone, lookupField_setField_self, he]
        | arr nxs =>
          obtain ⟨merged, hmerged⟩ := overlayArr_ok oxs nxs hrecs.1 hcV
          obtain ⟨gs, hgs, ha, hb2, hc2, hd2⟩ :=
            overlayFields_spec rest (setField nfs k₀ (.arr merged))
              hrecs.2 (hcongr (.arr merged)) hnd.2
          refine ⟨gs, ?_, ?_⟩
          · simp only [overlayFields, getFieldJ, hnf, hmerged, setFieldJ]
            exact hgs
          · refine consConclusions k₀ (.arr oxs) rest nfs _ gs
              (hneOf (.arr merged)) ha hb2 hc2 hd2 ?_ ?_ ?_
            · intro _ habs
              simp [isArrB] at habs
            · intro w _ habs
              simp [isArrB] at habs
            · intro xs _ hnull
              rw [hnf] at hnull
              rcases hnull with h | h
              · exact nomatch h
              · exact nomatch h
        | bool b => exact absurd hcV (by simp)
        | num n => exact absurd hcV (by simp)
        | str s => exact absurd hcV (by simp)
        | obj fs2 => exact absurd hcV (by simp)
    | .null => exact overlayFieldsNonArr k₀ .null rest nfs rfl hrec hcompat hnodup
    | .bool b => exact overlayFieldsNonArr k₀ (.bool b) rest nfs rfl hrec hcompat hnodup
    | .num n => exact overlayFieldsNonArr k₀ (.num n) rest nfs rfl hrec hcompat hnodup
    | .str s => exact overlayFieldsNonArr k₀ (.str s) rest nfs rfl hrec hcompat hnodup
    | .obj fs2 => exact overlayFieldsNonArr k₀ (.obj fs2) rest nfs rfl hrec hcompat hnodup
termination_by (jSizeF ofs, 1)
decreasing_by all_goals simp [jSize, jSizeF, jSizeL, Prod.lex_def] <;> omega

theorem overlayFieldsNonArr (k₀ : String) (ov : JVal)
    (rest nfs : List (String × JVal)) (hbf : isArrB ov = false)
    (hrec : recLikeOF ((k₀, ov) :: rest) = true)
    (hcompat : compatF nfs ((k₀, ov) :: rest) = true)
    (hnodup : (((k₀, ov) :: rest).map Prod.fst).Nodup) :
    ∃ gs, overlayFields (.obj nfs) ((k₀, ov) :: rest) = .ok (.obj gs) ∧
      (∀ k, lookupField ((k₀, ov) :: rest) k = none →
        lookupField gs k = lookupField nfs k) ∧
      (∀ k v, lookupField ((k₀, ov) :: rest) k = some v → isArrB v = false →
        lookupField nfs k = none → lookupField gs k = some v) ∧
      (∀ k v w, lookupField ((k₀, ov) :: rest) k = some v →
        isArrB v = false →
        lookupField nfs k = some w → lookupField gs k = some w) ∧
      (∀ k xs, lookupField ((k₀, ov) :: rest) k = some (.arr xs) →
        (lookupField nfs k = none ∨ lookupField nfs k = some JVal.null) →
        lookupField gs k = some (.arr xs)) := by
  have hrecs : recLikeOF rest = true := by
    have h := hrec
    simp only [recLikeOF, Bool.and_eq_true] at h
    exact h.2
  have hcomps : compatF nfs rest = true := by
    have h := hcompat
    simp only [compatF, Bool.and_eq_true] at h
    exact h.2
  have hnd : k₀ ∉ rest.map Prod.fst ∧ (rest.map Prod.fst).Nodup := by
    have h := hnodup
    simp only [List.map_cons, List.nodup_cons] at h
    exact h
  have hrestNone : lookupField rest k₀ = none :=
    lookupField_eq_none rest k₀ hnd.1
  have hneOf : ∀ (x : JVal) (k : String), k₀ ≠ k →
      lookupField (setField nfs k₀ x) k = lookupField nfs k :=
    fun x k hkk => lookupField_setField_ne nfs k₀ k x hkk
  cases hnf : lookupField nfs k₀ with
  | none =>
    have hcongr : compatF (setField nfs k₀ ov) rest = true := by
      rw [compatF_congr rest nfs _ (fun k2 hk2 =>
        hneOf ov k2 (fun he => hnd.1 (he ▸ hk2)))]
      exact hcomps
    obtain ⟨gs, hgs, ha, hb2, hc2, hd2⟩ :=
      overlayFields_spec rest (setField nfs k₀ ov) hrecs hcongr hnd.2
    refine ⟨gs, ?_, ?_⟩
    · rw [overlayFields_cons_nonarr _ _ _ _ hbf]
      simp only [getFieldJ, hnf, setFieldJ]
      exact hgs
    · refine consConclusions k₀ ov rest nfs _ gs
        (hneOf ov) ha hb2 hc2 hd2 ?_ ?_ ?_
      · intro _ _
        rw [ha k₀ hrestNone, lookupField_setField_self]
      · intro w hw
        rw [hnf] at hw
        exact nomatch hw
      · intro xs hxs _
        rw [hxs] at hbf
        simp [isArrB] at hbf
  | some w0 =>
    obtain ⟨gs, hgs, ha, hb2, hc2, hd2⟩ :=
      overlayFields_spec rest nfs hrecs hcomps hnd.2
    refine ⟨gs, ?_, ?_⟩
    · rw [overlayFields_cons_nonarr _ _ _ _ hbf]
      simp only [getFieldJ, hnf]
      exact hgs
    · refine consConclusions k₀ ov rest nfs nfs gs
        (fun _ _ => rfl) ha hb2 hc2 hd2 ?_ ?_ ?_
      · intro hw
        rw [hnf] at hw
        exact nomatch hw
      · intro w hw _
        rw [hnf] at hw
        injection hw with hww
        rw [ha k₀ hrestNone, hnf, hww]
      · intro xs hxs _
        rw [hxs] at hbf
        simp [isArrB] at hbf
termination_by (jSizeF ((k₀, ov) :: rest), 0)
decreasing_by all_goals simp [jSize, jSizeF, jSizeL, Prod.lex_def] <;> omega

theorem overlayArr_ok (oxs nxs : List JVal)
    (hrec : recLikeOL oxs = true) (hcompat : compatL nxs oxs = true) :
    ∃ merged, overlayArr nxs oxs = .ok merged := by
  match oxs, nxs with
  | [], ns => exact ⟨ns, by simp [overlayArr]⟩
  | o :: os, [] =>
    have hrecR : recLikeOL os = true := by
      have h := hrec
      simp only [recLikeOL, Bool.and_eq_true] at h
      exact h.2
    have hcomp2 : compatL [] os = true := by
      cases os <;> simp [compatL]
    obtain ⟨m, hm⟩ := overlayArr_ok os [] hrecR hcomp2
    exact ⟨.null :: m, by simp [overlayArr, hm]⟩
  | o :: os, n :: ns =>
    have hrecs : recLikeOE o = true ∧ recLikeOL os = true := by
      have h := hrec
      simp only [recLikeOL, Bool.and_eq_true] at h
      exact h
    have hcomps : compatE n o = true ∧ compatL ns os = true := by
      have h := hcompat
      simp only [compatL, Bool.and_eq_true] at h
      exact h
    obtain ⟨d, hd⟩ := overlayElem_ok o n hrecs.1 hcomps.1
    obtain ⟨m, hm⟩ := overlayArr_ok os ns hrecs.2 hcomps.2
    exact ⟨d :: m, by simp [overlayArr, hd, hm]⟩
termination_by (jSizeL oxs, 0)
decreasing_by all_goals simp [jSize, jSizeF, jSizeL, Prod.lex_def] <;> omega

theorem overlayElem_ok (o n : JVal)
    (hrec : recLikeOE o = true) (hcompat : compatE n o = true) :
    ∃ d, overlay n o = .ok d := by
  match o with
  | .obj [] => exact ⟨n, by simp [overlay, overlayFields]⟩
  | .obj ((k1, v1) :: fs) =>
    have hr : (((k1, v1) :: fs).map Prod.fst).Nodup ∧
        recLikeOF ((k1, v1) :: fs) = true := by
      have h := hrec
      simp only [recLikeOE, Bool.and_eq_true, decide_eq_true_eq] at h
      exact h
    cases n with
    | obj nfs =>
      have hc : compatF nfs ((k1, v1) :: fs) = true := by
        have h := hcompat
        simp only [compatE] at h
        exact h
      obtain ⟨gs, hgs, _, _, _, _⟩ :=
        overlayFields_spec ((k1, v1) :: fs) nfs hr.2 hc hr.1
      exact ⟨.obj gs, by simp only [overlay]; exact hgs⟩
    | null =>
      simp only [compatE] at hcompat
      exact nomatch hcompat
    | bool b =>
      simp only [compatE] at hcompat
      exact nomatch hcompat
    | num m =>
      simp only [compatE] at hcompat
      exact nomatch hcompat
    | str s =>
      simp only [compatE] at hcompat
      exact nomatch hcompat
    | arr xs =>
      simp only [compatE] at hcompat
      exact nomatch hcompat
  | .null => exact absurd hrec (by simp [recLikeOE])
  | .bool b => exact absurd hrec (by simp [recLikeOE])
  | .num m => exact absurd hrec (by simp [recLikeOE])
  | .str s => exact absurd hrec (by simp [recLikeOE])
  | .arr xs => exact absurd hrec (by simp [recLikeOE])
termination_by (jSize o, 1)
decreasing_by all_goals simp [jSize, jSizeF, jSizeL, Prod.lex_def] <;> omega

end

/-- C1, amended: a `POST` whose id resolves to an existing row is
transformed into a `PATCH` whose data is the JSON-patch between the
existing row and the new data overlaid with the existing row's values:
a missing non-array field keeps the existing value (it is left
unchanged, not overlaid with null), a missing or null nested array is
taken whole from the existing row, and if the new data carries no value
at an old array position the surplus elements are overwritten with null
entries; if the id resolves to no row, the record is inserted with the
requested id set on the data. -/
theorem upsert_transform (ofs nfs : List (String × JVal)) (rid : String)
    (hrec : recLikeOF ofs = true)
    (hnodup : (ofs.map Prod.fst).Nodup)
    (hcompat : compatF nfs ofs = true) :
    (∃ d, overlay (.obj nfs) (.obj ofs) = .ok d ∧
      upsertCallback (some (.obj ofs)) (.obj nfs) rid =
        .ok (.patch (comparePatch (.obj ofs) d)) ∧
      (∀ k v, lookupField ofs k = some v → isArrB v = false →
        lookupField nfs k = none → getFieldJ d k = some v) ∧
      (∀ k xs, lookupField ofs k = some (.arr xs) →
        (lookupField nfs k = none ∨ lookupField nfs k = some JVal.null) →
        getFieldJ d k = some (.arr xs)) ∧
      (∀ k, lookupField ofs k = none →
        getFieldJ d k = lookupField nfs k)) ∧
    (∀ oxs, overlayArr [] oxs = .ok (List.replicate oxs.length JVal.null)) ∧
    upsertCallback none (.obj nfs) rid =
      .ok (.post (.obj (setField nfs "id" (.str rid)))) := by
  obtain ⟨gs, hgs, ha, hb2, hc2, hd2⟩ :=
    overlayFields_spec ofs nfs hrec hcompat hnodup
  have hov : overlay (.obj nfs) (.obj ofs) = .ok (.obj gs) := by
    simp only [overlay]
    exact hgs
  refine ⟨⟨.obj gs, hov, ?_, ?_, ?_, ?_⟩, overlayArr_nil_new, ?_⟩
  · simp only [upsertCallback, hov]
  · intro k v hk hva hnk
    simp only [getFieldJ]
    exact hb2 k v hk hva hnk
  · intro k xs hk hnull
    simp only [getFieldJ]
    exact hd2 k xs hk hnull
  · intro k hk
    simp only [getFieldJ]
    exact ha k hk
  · simp [upsertCallback, setFieldJ]

/-- C1 witness: an existing order row with a scalar field and a child
array; the incoming data misses both, so the scalar keeps its value and
the whole child array is preserved, while the method downgrades to
PATCH; the no-row branch posts with the id set. -/
theorem upsert_transform_witness :
    (recLikeOF [("id", JVal.str "1"), ("name", JVal.str "Ada"),
      ("lines", JVal.arr [JVal.obj [("id", JVal.str "L1")]])] = true) ∧
    (([("id", JVal.str "1"), ("name", JVal.str "Ada"),
      ("lines", JVal.arr [JVal.obj [("id", JVal.str "L1")]])].map
        Prod.fst).Nodup) ∧
    (compatF [("id", JVal.str "1"), ("name", JVal.str "Grace")]
      [("id", JVal.str "1"), ("name", JVal.str "Ada"),
      ("lines", JVal.arr [JVal.obj [("id", JVal.str "L1")]])] = true) ∧
    ((∃ d, overlay (.obj [("id", JVal.str "1"), ("name", JVal.str "Grace")])
        (.obj [("id", JVal.str "1"), ("name", JVal.str "Ada"),
          ("lines", JVal.arr [JVal.obj [("id", JVal.str "L1")]])]) =
        .ok d ∧
      upsertCallback (some (.obj [("id", JVal.str "1"),
          ("name", JVal.str "Ada"),
          ("lines", JVal.arr [JVal.obj [("id", JVal.str "L1")]])]))
          (.obj [("id", JVal.str "1"), ("name", JVal.str "Grace")]) "1" =
        .ok (.patch (comparePatch (.obj [("id", JVal.str "1"),
          ("name", JVal.str "Ada"),
          ("lines", JVal.arr [JVal.obj [("id", JVal.str "L1")]])]) d)) ∧
      (∀ k v, lookupField [("id", JVal.str "1"), ("name", JVal.str "Ada"),
          ("lines", JVal.arr [JVal.obj [("id", JVal.str "L1")]])] k =
          some v → isArrB v = false →
        lookupField [("id", JVal.str "1"), ("name", JVal.str "Grace")] k =
          none → getFieldJ d k = some v) ∧
      (∀ k xs, lookupField [("id", JVal.str "1"), ("name", JVal.str "Ada"),
          ("lines", JVal.arr [JVal.obj [("id", JVal.str "L1")]])] k =
          some (.arr xs) →
        (lookupField [("id", JVal.str "1"), ("name", JVal.str "Grace")] k =
          none ∨
         lookupField [("id", JVal.str "1"), ("name", JVal.str "Grace")] k =
          some JVal.null) →
        getFieldJ d k = some (.arr xs)) ∧
      (∀ k, lookupField [("id", JVal.str "1"), ("name", JVal.str "Ada"),
          ("lines", JVal.arr [JVal.obj [("id", JVal.str "L1")]])] k =
          none →
        getFieldJ d k =
          lookupField [("id", JVal.str "1"), ("name", JVal.str "Grace")] k)) ∧
    (∀ oxs, overlayArr [] oxs = .ok (List.replicate oxs.length JVal.null)) ∧
    upsertCallback none
        (.obj [("id", JVal.str "1"), ("name", JVal.str "Grace")]) "1" =
      .ok (.post (.obj (setField [("id", JVal.str "1"),
        ("name", JVal.str "Grace")] "id" (.str "1"))))) := by
  refine ⟨?_, by decide, ?_, ?_⟩
  · simp [recLikeOF, recLikeOV, recLikeOL, recLikeOE]
  · simp [compatF, compatV, lookupField]
  · exact upsert_transform
      [("id", JVal.str "1"), ("name", JVal.str "Ada"),
        ("lines", JVal.arr [JVal.obj [("id", JVal.str "L1")]])]
      [("id", JVal.str "1"), ("name", JVal.str "Grace")] "1"
      (by simp [recLikeOF, recLikeOV, recLikeOL, recLikeOE])
      (by decide)
      (by simp [compatF, compatV, lookupField])

/-- C1 counterexample: on an existing row `{id: "1", a: 1}` and new data
`{id: "1"}` the pipeline produces an empty patch — the missing field `a`
keeps its value — whereas the claim's reading (existing row overlaid
with nulls for missing fields) would diff to a remove of `/a`; the two
patches differ. -/
theorem upsert_null_overlay_counterexample :
    upsertCallback (some (.obj [("id", JVal.str "1"), ("a", JVal.num 1)]))
      (.obj [("id", JVal.str "1")]) "1" = .ok (.patch []) ∧
    comparePatch
      (specNullOverlay (.obj [("id", JVal.str "1"), ("a", JVal.num 1)])
        (.obj [("id", JVal.str "1")]))
      (.obj [("id", JVal.str "1")]) = [.remove ["a"]] ∧
    ([] : List PatchOp) ≠ [.remove ["a"]] := by
  refine ⟨?_, ?_, by simp⟩
  · simp [upsertCallback, overlay, overlayFields, getFieldJ, lookupField,
      setFieldJ, setField, comparePatch, genPatch, genRR, genAdds, jeq]
  · simp [specNullOverlay, lookupField, comparePatch, genPatch, genRR,
      genAdds, jeq]

/-! ## Tools: `sanitize` (`src/unnamed/part_006` lines 480–545). -/

/-- The `oKey.match("^_")` test: the key begins with an underscore. -/
def startsWithUnderscore (s : String) : Bool :=
  match s.data with
  | '_' :: _ => true
  | _ => false

-- tools.sanitize: a non-array input is wrapped as a one-element array;
-- each element that is a string passes, any other element is rebuilt as
-- an object from its enumerable keys (JavaScript arrays enumerate index
-- keys, numbers and booleans none, and Object.keys throws on null):
-- keys beginning with "_" are dropped, the rest are camel-cased and
-- assigned, and object or array values are recursively sanitized.
mutual

def sanitize : JVal → Except String JVal
  | .arr xs =>
    (match sanitizeElems xs with
     | .ok ys => .ok (.arr ys)
     | .error e => .error e)
  | .str s => .ok (.str s)
  | .null => .error "TypeError: Cannot convert undefined or null to object"
  | .bool _ => .ok (.obj [])
  | .num _ => .ok (.obj [])
  | .obj fs =>
    (match sanitizeObjFields [] fs with
     | .ok gs => .ok (.obj gs)
     | .error e => .error e)
termination_by v => jSize v
decreasing_by all_goals simp [jSize, jSizeF, jSizeL, jSizeF_idxPairs] <;> omega

def sanitizeElems : List JVal → Except String (List JVal)
  | [] => .ok []
  | x :: xs =>
    (match sanitizeElem x with
     | .ok y =>
       (match sanitizeElems xs with
        | .ok ys => .ok (y :: ys)
        | .error e => .error e)
     | .error e => .error e)
termination_by xs => jSizeL xs
decreasing_by all_goals simp [jSize, jSizeF, jSizeL, jSizeF_idxPairs] <;> omega

def sanitizeElem : JVal → Except String JVal
  | .str s => .ok (.str s)
  | .null => .error "TypeError: Cannot convert undefined or null to object"
  | .bool _ => .ok (.obj [])
  | .num _ => .ok (.obj [])
  | .obj fs =>
    (match sanitizeObjFields [] fs with
     | .ok gs => .ok (.obj gs)
     | .error e => .error e)
  | .arr xs =>
    -- an array nested directly inside an array is treated as a plain
    -- object keyed by its indices
    (match sanitizeObjFields [] (idxPairs 0 xs) with
     | .ok gs => .ok (.obj gs)
     | .error e => .error e)
termination_by v => jSize v
decreasing_by all_goals simp [jSize, jSizeF, jSizeL, jSizeF_idxPairs] <;> omega

def sanitizeObjFields (acc : List (String × JVal)) :
    List (String × JVal) → Except String (List (String × JVal))
  | [] => .ok acc
  | (k, v) :: rest =>
    if startsWithUnderscore k then sanitizeObjFields acc rest
    else
      (match sanitizeFieldVal v with
       | .ok w => sanitizeObjFields (setField acc (toCamelCase k) w) rest
       | .error e => .error e)
termination_by fs => jSizeF fs
decreasing_by all_goals simp [jSize, jSizeF, jSizeL, jSizeF_idxPairs] <;> omega

def sanitizeFieldVal : JVal → Except String JVal
  | .obj fs =>
    (match sanitizeObjFields [] fs with
     | .ok gs => .ok (.obj gs)
     | .error e => .error e)
  | .arr xs =>
    (match sanitizeElems xs with
     | .ok ys => .ok (.arr ys)
     | .error e => .error e)
  | v => .ok v
termination_by v => jSize v
decreasing_by all_goals simp [jSize, jSizeF, jSizeL, jSizeF_idxPairs] <;> omega

end

-- The sanitizer the claim describes: drop keys beginning with "_",
-- camel-case the rest, recurse into nested objects, sanitize arrays
-- element-wise, pass strings through.  The claim leaves scalar inputs
-- unconstrained; the code collapses numbers and booleans in element
-- position to empty objects, which the spec-side function mirrors so
-- that the two sides can be compared on that position.
mutual

def specSanitize : JVal → JVal
  | .str s => .str s
  | .arr xs => .arr (specSanL xs)
  | .obj fs => .obj (specSanF fs)
  | .bool _ => .obj []
  | .num _ => .obj []
  | .null => .null
termination_by v => jSize v
decreasing_by all_goals simp [jSize, jSizeF, jSizeL] <;> omega

def specSanL : List JVal → List JVal
  | [] => []
  | x :: xs => specSanitize x :: specSanL xs
termination_by xs => jSizeL xs
decreasing_by all_goals simp [jSize, jSizeF, jSizeL] <;> omega

def specSanF : List (String × JVal) → List (String × JVal)
  | [] => []
  | (k, v) :: rest =>
    if startsWithUnderscore k then specSanF rest
    else (toCamelCase k, specSanFV v) :: specSanF rest
termination_by fs => jSizeF fs
decreasing_by all_goals simp [jSize, jSizeF, jSizeL] <;> omega

def specSanFV : JVal → JVal
  | .obj fs => .obj (specSanF fs)
  | .arr xs => .arr (specSanL xs)
  | v => v
termination_by v => jSize v
decreasing_by all_goals simp [jSize, jSizeF, jSizeL] <;> omega

end

/-- The camel-cased kept keys of a field list. -/
def keptKeys (fs : List (String × JVal)) : List String :=
  (fs.filter (fun p => !startsWithUnderscore p.1)).map
    (fun p => toCamelCase p.1)

-- The fragment of values on which the claim's description holds: no
-- null in element position (Object.keys throws) and no array directly
-- inside an array (index-keyed objectification), and no camel-case key
-- collisions inside an object (JavaScript assignment would overwrite).
mutual

def goodElem : JVal → Bool
  | .null => false
  | .arr _ => false
  | .obj fs => goodFields fs
  | _ => true
termination_by v => (jSize v, 0)
decreasing_by all_goals simp [jSize, jSizeF, jSizeL, Prod.lex_def] <;> omega

def goodFields : List (String × JVal) → Bool
  | fs => decide ((keptKeys fs).Nodup) && goodFieldVals fs
termination_by fs => (jSizeF fs, 1)
decreasing_by all_goals simp [jSize, jSizeF, jSizeL, Prod.lex_def] <;> omega

def goodFieldVals : List (String × JVal) → Bool
  | [] => true
  | (_, v) :: rest => goodFieldVal v && goodFieldVals rest
termination_by fs => (jSizeF fs, 0)
decreasing_by all_goals simp [jSize, jSizeF, jSizeL, Prod.lex_def] <;> omega

def goodFieldVal : JVal → Bool
  | .obj fs => goodFields fs
  | .arr xs => goodElems xs
  | _ => true
termination_by v => (jSize v, 0)
decreasing_by all_goals simp [jSize, jSizeF, jSizeL, Prod.lex_def] <;> omega

def goodElems : List JVal → Bool
  | [] => true
  | x :: xs => goodElem x && goodElems xs
termination_by xs => (jSizeL xs, 0)
decreasing_by all_goals simp [jSize, jSizeF, jSizeL, Prod.lex_def] <;> omega

end

/-- The whole input to `sanitize`: an array is processed element-wise,
anything else is wrapped as a one-element array. -/
def goodVal : JVal → Bool
  | .arr xs => goodElems xs
  | v => goodElem v

theorem setField_append_of_not_mem (fs : List (String × JVal)) (k : String)
    (v : JVal) (h : k ∉ fs.map Prod.fst) : setField fs k v = fs ++ [(k, v)] := by
  induction fs with
  | nil => rfl
  | cons p rest ih =>
    obtain ⟨k', v'⟩ := p
    simp only [List.map_cons, List.mem_cons] at h
    push_neg at h
    have hne : ¬ (k' = k) := fun he => h.1 he.symm
    simp only [setField, if_neg hne, List.cons_append]
    rw [ih h.2]

theorem specSanL_eq_map (xs : List JVal) :
    specSanL xs = xs.map specSanitize := by
  induction xs with
  | nil => simp [specSanL]
  | cons x rest ih => simp [specSanL, ih]

theorem keptKeys_cons (k : String) (v : JVal) (rest : List (String × JVal)) :
    keptKeys ((k, v) :: rest) =
      if startsWithUnderscore k then keptKeys rest
      else toCamelCase k :: keptKeys rest := by
  by_cases h : startsWithUnderscore k <;>
    simp [keptKeys, List.filter_cons, h]

theorem specSanF_keys (fs : List (String × JVal)) :
    (specSanF fs).map Prod.fst = keptKeys fs := by
  induction fs with
  | nil => simp [specSanF, keptKeys]
  | cons p rest ih =>
    obtain ⟨k, v⟩ := p
    rw [keptKeys_cons]
    by_cases h : startsWithUnderscore k
    · simp [specSanF, h, ih]
    · simp [specSanF, h, ih]

-- The sanitizer agrees with the claim's description on the good
-- fragment.
mutual

theorem sanitizeObjFields_spec (fs : List (String × JVal))
    (acc : List (String × JVal)) (hgood : goodFieldVals fs = true)
    (hnd : (acc.map Prod.fst ++ keptKeys fs).Nodup) :
    sanitizeObjFields acc fs = .ok (acc ++ specSanF fs) := by
  match fs with
  | [] => simp [sanitizeObjFields, specSanF]
  | (k, v) :: rest =>
    have hgoods : goodFieldVal v = true ∧ goodFieldVals rest = true := by
      have h := hgood
      simp only [goodFieldVals, Bool.and_eq_true] at h
      exact h
    by_cases hu : startsWithUnderscore k
    · have hnd2 : (acc.map Prod.fst ++ keptKeys rest).Nodup := by
        rw [keptKeys_cons, if_pos hu] at hnd
        exact hnd
      have := sanitizeObjFields_spec rest acc hgoods.2 hnd2
      simp only [sanitizeObjFields, if_pos hu, specSanF, this]
    · have hnd2 : (acc.map Prod.fst ++
          (toCamelCase k :: keptKeys rest)).Nodup := by
        rw [keptKeys_cons, if_neg hu] at hnd
        exact hnd
      have hckNotAcc : toCamelCase k ∉ acc.map Prod.fst := by
        have hdisj := List.disjoint_of_nodup_append hnd2
        intro hmem
        exact hdisj hmem (by simp)
      have hfv := sanitizeFieldVal_spec v hgoods.1
      have hset : setField acc (toCamelCase k) (specSanFV v) =
          acc ++ [(toCamelCase k, specSanFV v)] :=
        setField_append_of_not_mem acc _ _ hckNotAcc
      have hnd3 : ((acc ++ [(toCamelCase k, specSanFV v)]).map Prod.fst ++
          keptKeys rest).Nodup := by
        rw [List.map_append, List.append_assoc]
        simpa using hnd2
      have hrest := sanitizeObjFields_spec rest
        (acc ++ [(toCamelCase k, specSanFV v)]) hgoods.2 hnd3
      simp only [sanitizeObjFields, if_neg hu, hfv, hset, hrest,
        specSanF, List.append_assoc, List.singleton_append]
termination_by jSizeF fs
decreasing_by all_goals simp [jSize, jSizeF, jSizeL] <;> omega

theorem sanitizeElems_spec (xs : List JVal) (hgood : goodElems xs = true) :
    sanitizeElems xs = .ok (specSanL xs) := by
  match xs with
  | [] => simp [sanitizeElems, specSanL]
  | x :: rest =>
    have hgoods : goodElem x = true ∧ goodElems rest = true := by
      have h := hgood
      simp only [goodElems, Bool.and_eq_true] at h
      exact h
    have h1 := sanitizeElem_spec x hgoods.1
    have h2 := sanitizeElems_spec rest hgoods.2
    simp only [sanitizeElems, h1, h2, specSanL]
termination_by jSizeL xs
decreasing_by all_goals simp [jSize, jSizeF, jSizeL] <;> omega

theorem sanitizeElem_spec (v : JVal) (hgood : goodElem v = true) :
    sanitizeElem v = .ok (specSanitize v) := by
  match v with
  | .str s => simp [sanitizeElem, specSanitize]
  | .bool b => simp [sanitizeElem, specSanitize]
  | .num n => simp [sanitizeElem, specSanitize]
  | .null => exact absurd hgood (by simp [goodElem])
  | .arr xs => exact absurd hgood (by simp [goodElem])
  | .obj fs =>
    have hg : (keptKeys fs).Nodup ∧ goodFieldVals fs = true := by
      have h := hgood
      simp only [goodElem, goodFields, Bool.and_eq_true,
        decide_eq_true_eq] at h
      exact h
    have := sanitizeObjFields_spec fs [] hg.2 (by simpa using hg.1)
    simp only [sanitizeElem, this, specSanitize, List.nil_append]
termination_by jSize v
decreasing_by all_goals simp [jSize, jSizeF, jSizeL] <;> omega

theorem sanitizeFieldVal_spec (v : JVal) (hgood : goodFieldVal v = true) :
    sanitizeFieldVal v = .ok (specSanFV v) := by
  match v with
  | .str s => simp [sanitizeFieldVal, specSanFV]
  | .bool b => simp [sanitizeFieldVal, specSanFV]
  | .num n => simp [sanitizeFieldVal, specSanFV]
  | .null => simp [sanitizeFieldVal, specSanFV]
  | .arr xs =>
    have h : goodElems xs = true := by
      have h := hgood
      simp only [goodFieldVal] at h
      exact h
    have := sanitizeElems_spec xs h
    simp only [sanitizeFieldVal, this, specSanFV]
  | .obj fs =>
    have hg : (keptKeys fs).Nodup ∧ goodFieldVals fs = true := by
      have h := hgood
      simp only [goodFieldVal, goodFields, Bool.and_eq_true,
        decide_eq_true_eq] at h
      exact h
    have := sanitizeObjFields_spec fs [] hg.2 (by simpa using hg.1)
    simp only [sanitizeFieldVal, this, specSanFV, List.nil_append]
termination_by jSize v
decreasing_by all_goals simp [jSize, jSizeF, jSizeL] <;> omega

end

/-- C8, amended: on inputs without nulls or arrays in element position
(an element is the input itself, unless the input is an array, in which
case its members; persisted rows satisfy this) and without camel-case
key collisions, `sanitize` returns the structure the claim describes:
keys beginning with `_` are dropped, the remaining keys are camel-cased
(object field values that are objects or arrays are sanitized
recursively), arrays are sanitized element-wise and strings pass through
unchanged.  A null input — or a null or array member of an array —
raises a TypeError instead (see the counterexample), and numbers and
booleans in element position collapse to empty objects. -/
theorem sanitize_matches_spec (v : JVal) (hgood : goodVal v = true) :
    sanitize v = .ok (specSanitize v) ∧
    (∀ s, specSanitize (.str s) = .str s) ∧
    (∀ xs, specSanitize (.arr xs) = .arr (xs.map specSanitize)) ∧
    (∀ fs, (specSanF fs).map Prod.fst =
      (fs.filter (fun p => !startsWithUnderscore p.1)).map
        (fun p => toCamelCase p.1)) := by
  refine ⟨?_, fun s => by simp [specSanitize],
    fun xs => by simp [specSanitize, specSanL_eq_map],
    fun fs => specSanF_keys fs⟩
  match v with
  | .str s => simp [sanitize, specSanitize]
  | .bool b => simp [sanitize, specSanitize]
  | .num n => simp [sanitize, specSanitize]
  | .null => exact absurd hgood (by simp [goodVal, goodElem])
  | .arr xs =>
    have h : goodElems xs = true := by
      have h := hgood
      simp only [goodVal] at h
      exact h
    have := sanitizeElems_spec xs h
    simp only [sanitize, this, specSanitize]
  | .obj fs =>
    have hg : (keptKeys fs).Nodup ∧ goodFieldVals fs = true := by
      have h := hgood
      simp only [goodVal, goodElem, goodFields, Bool.and_eq_true,
        decide_eq_true_eq] at h
      exact h
    have := sanitizeObjFields_spec fs [] hg.2 (by simpa using hg.1)
    simp only [sanitize, this, specSanitize, List.nil_append]

/-- C8 witness: a row with an internal `_pk` key, snake_case keys, a
null value, a string array member and a nested record. -/
theorem sanitize_matches_spec_witness :
    (goodVal (.obj [("_pk", JVal.num 5), ("first_name", JVal.str "Ada"),
      ("note", JVal.null),
      ("tags", JVal.arr [JVal.str "x",
        JVal.obj [("a_b", JVal.num 1)]])]) = true) ∧
    (sanitize (.obj [("_pk", JVal.num 5), ("first_name", JVal.str "Ada"),
      ("note", JVal.null),
      ("tags", JVal.arr [JVal.str "x",
        JVal.obj [("a_b", JVal.num 1)]])]) =
      .ok (specSanitize (.obj [("_pk", JVal.num 5),
        ("first_name", JVal.str "Ada"), ("note", JVal.null),
        ("tags", JVal.arr [JVal.str "x",
          JVal.obj [("a_b", JVal.num 1)]])]))) ∧
    (specSanitize (.obj [("_pk", JVal.num 5), ("first_name", JVal.str "Ada"),
      ("note", JVal.null),
      ("tags", JVal.arr [JVal.str "x",
        JVal.obj [("a_b", JVal.num 1)]])]) =
      .obj [("firstName", JVal.str "Ada"), ("note", JVal.null),
        ("tags", JVal.arr [JVal.str "x",
          JVal.obj [("aB", JVal.num 1)]])]) := by
  have hg : goodVal (.obj [("_pk", JVal.num 5),
      ("first_name", JVal.str "Ada"), ("note", JVal.null),
      ("tags", JVal.arr [JVal.str "x",
        JVal.obj [("a_b", JVal.num 1)]])]) = true := by
    simp [goodVal, goodElem, goodFields, goodFieldVals, goodFieldVal,
      goodElems, keptKeys, List.filter, startsWithUnderscore, toCamelCase,
      camelChars, capitalizeChars]
  refine ⟨hg, ?_, ?_⟩
  · exact (sanitize_matches_spec _ hg).1
  · simp [specSanitize, specSanF, specSanFV, specSanL,
      startsWithUnderscore, toCamelCase, camelChars, capitalizeChars]

/-- C8 counterexample: `sanitize` does not return a structure for every
input — a null input (or a null member of an array) makes `Object.keys`
throw — and an array nested directly inside an array is rebuilt as an
index-keyed object rather than sanitized element-wise: the element
`[1]` sanitizes alone to `[{}]` but becomes `{"0": 1}` inside an
array. -/
theorem sanitize_counterexample :
    sanitize JVal.null =
      .error "TypeError: Cannot convert undefined or null to object" ∧
    sanitize (.arr [.arr [.num 1]]) =
      .ok (.arr [.obj [("0", .num 1)]]) ∧
    sanitize (.arr [.num 1]) = .ok (.arr [.obj []]) ∧
    JVal.obj [("0", JVal.num 1)] ≠ JVal.arr [JVal.obj []] := by
  refine ⟨by simp [sanitize], ?_, ?_, fun h => JVal.noConfusion h⟩
  · have h0 : toString (0 : Nat) = "0" := rfl
    simp [sanitize, sanitizeElems, sanitizeElem, idxPairs, h0,
      sanitizeObjFields, sanitizeFieldVal, startsWithUnderscore,
      toCamelCase, camelChars, setField]
  · simp [sanitize, sanitizeElems, sanitizeElem, sanitizeObjFields]

end FB
